import Mathlib

/-!
Fleece: the Scope/Doc registry and the C encoder surface.

A shallow embedding of `Fleece/Core/Doc.cc`, `Fleece/Core/Doc.hh` and of the encoder
functions of `Fleece/API_Impl/Fleece.cc`, followed by the properties proved about them.

Addresses are natural numbers, the null pointer is `0`.  The mutex `sMutex` only
serialises the registry operations, so every operation is a function from the registry
state before it to the registry state after it.
-/

namespace fleece

/-! ## Slices -/

/-- Modelled from the spec: `fleece/slice.hh` is not among the sources.  A slice is a
byte range given by the address `buf` of its first byte and its `size`. -/
structure slice where
  buf : Nat
  size : Nat
deriving DecidableEq, Repr

/-- Modelled from the spec: the null slice, an absent byte range. -/
def nullslice : slice := ⟨0, 0⟩

/-- Modelled from the spec: `slice::end()`, the address just past the last byte. -/
def slice.end_ (s : slice) : Nat := s.buf + s.size

/-- Modelled from the spec: `slice::operator bool`, true when the slice is not null. -/
def slice.toBool (s : slice) : Bool := s.buf != 0

/-- Modelled from the spec: `slice::contains(const void*)`, the address lies in the
half-open byte range `[buf, end)`. -/
def slice.contains (s : slice) (addr : Int) : Bool :=
  decide ((s.buf : Int) ≤ addr) && decide (addr < (s.end_ : Int))

/-- Modelled from the spec: `slice::contains(slice)`, the byte range of `t` lies within
the byte range of `s`. -/
def slice.containsSlice (s t : slice) : Bool :=
  decide (s.buf ≤ t.buf) && decide (t.end_ ≤ s.end_)

/-- The comparison `slice::operator==` of the absent `fleece/slice.hh`, taken as a
parameter together with the only facts about it that the registry relies on: it is an
equivalence, and slices that compare equal have the same size. -/
structure SliceEq where
  eq : slice → slice → Bool
  refl : ∀ a, eq a a = true
  symm : ∀ a b, eq a b = true → eq b a = true
  trans : ∀ a b c, eq a b = true → eq b c = true → eq a c = true
  size_eq : ∀ a b, eq a b = true → a.size = b.size

/-- Comparison of slices as byte ranges: same start address and same size. -/
def rangeEq : SliceEq where
  eq a b := a.buf == b.buf && a.size == b.size
  refl a := by simp
  symm a b := by simp; intro h1 h2; exact ⟨h1.symm, h2.symm⟩
  trans a b c := by simp; intro h1 h2 h3 h4; exact ⟨h1.trans h3, h2.trans h4⟩
  size_eq a b := by simp

/-- Comparison of slices by content, for a memory `mem` giving the byte at each
address: same size and the same bytes.  This is the comparison that `FLSlice_Equal`
of `Fleece.cc` hands out as `slice::operator==`. -/
def contentEq (mem : Nat → Nat) : SliceEq where
  eq a b := a.size == b.size &&
    (List.range a.size).all (fun i => mem (a.buf + i) == mem (b.buf + i))
  refl a := by simp
  symm a b := by
    simp only [Bool.and_eq_true, beq_iff_eq, List.all_eq_true, List.mem_range]
    intro h
    exact ⟨h.1.symm, fun i hi => (h.2 i (h.1 ▸ hi)).symm⟩
  trans a b c := by
    simp only [Bool.and_eq_true, beq_iff_eq, List.all_eq_true, List.mem_range]
    intro h1 h2
    exact ⟨h1.1.trans h2.1, fun i hi => (h1.2 i hi).trans (h2.2 i (h1.1 ▸ hi))⟩
  size_eq a b := by
    simp only [Bool.and_eq_true, beq_iff_eq]
    intro h
    exact h.1

/-! ## Scopes and the registry -/

/-- Error codes raised by the registry code. -/
inductive ErrorCode where
  | InternalError
  | AssertionFailed
deriving DecidableEq, Repr

/-- What a `Scope*` designates: the address of the Scope object together with the
members of the object that never change after construction (`_sk`,
`_externDestination`, `_data`). -/
structure ScopeRef where
  addr : Nat
  sk : Nat
  externDestination : slice
  data : slice
deriving DecidableEq, Repr

/-- A Scope object: the constant members plus the flags `_registered` and `_isDoc`.
The member `_iter` designates the registry entry inserted by this object's `registr`;
a Scope registers at most once and live objects have distinct addresses, so that entry
is the one whose value is this object. -/
structure Scope extends ScopeRef where
  registered : Bool
  isDoc : Bool
deriving DecidableEq, Repr

/-- The container `std::multimap<size_t, Scope*>`: the entries in iteration order,
that is by ascending key, entries of equal key in insertion order. -/
abbrev memoryMap := List (Nat × ScopeRef)

/-- The entries of the registry `sMemoryMap`, none while the pointer is still null. -/
def entries (sMemoryMap : Option memoryMap) : memoryMap := sMemoryMap.getD []

/-- The registry entry of a Scope: `{size_t(_data.end()), this}`. -/
def Scope.entry (s : Scope) : Nat × ScopeRef := (s.data.end_, s.toScopeRef)

/-- The entries of `m` before the position where `multimap::insert` puts a new entry
of key `key`: those whose key is at most `key`. -/
def lowerPart (m : memoryMap) (key : Nat) : memoryMap :=
  m.takeWhile (fun e => decide (e.1 ≤ key))

/-- The entries of `m` after the position where `multimap::insert` puts a new entry of
key `key`. -/
def upperPart (m : memoryMap) (key : Nat) : memoryMap :=
  m.dropWhile (fun e => decide (e.1 ≤ key))

/-- `Scope::registr`: allocate the map on first use, insert `{key, this}` (after the
entries of equal key) and compare with the preceding entry when it has the same key.
The exception leaves a `noexcept` function, which ends the process: no state follows. -/
def registr (cmp : SliceEq) (sMemoryMap : Option memoryMap) (s : Scope) :
    Except ErrorCode (Option memoryMap × Scope) :=
  let m := entries sMemoryMap
  let key := s.data.end_
  let lower := lowerPart m key
  let upper := upperPart m key
  let m' := lower ++ (key, s.toScopeRef) :: upper
  let s' := { s with registered := true }
  match lower.getLast? with
  | some existing =>
    if existing.1 == key then
      if cmp.eq existing.2.data s.data
          && cmp.eq existing.2.externDestination s.externDestination
          && existing.2.sk == s.sk then
        .ok (some m', s')
      else
        .error ErrorCode.InternalError
    else
      .ok (some m', s')
  | none => .ok (some m', s')

/-- `Scope::unregister`: erase this object's entry when it is registered. -/
def unregister (sMemoryMap : Option memoryMap) (s : Scope) : Option memoryMap × Scope :=
  if s.registered then
    (sMemoryMap.map (fun m => m.erase s.entry), { s with registered := false })
  else
    (sMemoryMap, s)

/-- `Scope::_containing`: the first entry whose key is above `src` (`upper_bound`),
accepted when `src` is not below the start of its data. -/
def _containing (sMemoryMap : Option memoryMap) (src : Nat) : Option ScopeRef :=
  match sMemoryMap with
  | none => none
  | some m =>
    match m.find? (fun e => decide (src < e.1)) with
    | none => none
    | some i => if src < i.2.data.buf then none else some i.2

/-- `Scope::containing`: `_containing` under the mutex. -/
def containing (sMemoryMap : Option memoryMap) (src : Nat) : Option ScopeRef :=
  _containing sMemoryMap src

/-- `Scope::sharedKeys(const Value*)`. -/
def sharedKeys (sMemoryMap : Option memoryMap) (v : Nat) : Nat :=
  match _containing sMemoryMap v with
  | some scope => scope.sk
  | none => 0

/-- `Scope::resolveExternPointerTo`: shift `dst` by the distance from the start of the
data to the end of the extern destination; null unless the result lies in the extern
destination.  Pointers have 64 bits: the sum of the pointer and the offset is taken
modulo `2 ^ 64`. -/
def resolveExternPointerTo (s : ScopeRef) (dst : Int) : Int :=
  let dst' := (dst + ((s.externDestination.end_ : Int) - (s.data.buf : Int))) % 2 ^ 64
  if !s.externDestination.contains dst' then 0 else dst'

/-- `Scope::resolvePointerFrom`. -/
def resolvePointerFrom (sMemoryMap : Option memoryMap) (src : Nat) (dst : Int) : Int :=
  match _containing sMemoryMap src with
  | some scope => resolveExternPointerTo scope dst
  | none => 0

/-- The member initialisers shared by the constructors of Scope: `_sk`,
`_externDestination` and `_data` as given, `_registered` and `_isDoc` false. -/
def Scope.initial (this : Nat) (data : slice) (sk : Nat) (destination : slice) : Scope :=
  { addr := this, sk := sk, externDestination := destination, data := data,
    registered := false, isDoc := false }

/-- `Scope::Scope(slice data, SharedKeys*, slice destination)` and its `alloc_slice`
twin: a Scope at address `this`, registered when `data` is not null. -/
def Scope.new (cmp : SliceEq) (sMemoryMap : Option memoryMap) (this : Nat) (data : slice)
    (sk : Nat) (destination : slice) : Except ErrorCode (Option memoryMap × Scope) :=
  let s := Scope.initial this data sk destination
  if data.toBool then registr cmp sMemoryMap s else .ok (sMemoryMap, s)

/-- `Scope::Scope(const Scope &parentScope, slice subData)`: shared keys and extern
destination come from the parent; the assertion checks that a non-null `subData`
lies within the parent's data.  This constructor does not call `registr`. -/
def Scope.newSub (sMemoryMap : Option memoryMap) (this : Nat) (parentScope : Scope)
    (subData : slice) : Except ErrorCode (Option memoryMap × Scope) :=
  let s := Scope.initial this subData parentScope.sk parentScope.externDestination
  if subData.toBool && !parentScope.data.containsSlice subData then
    .error ErrorCode.AssertionFailed
  else
    .ok (sMemoryMap, s)

/-- `Scope::~Scope`. -/
def Scope.delete (sMemoryMap : Option memoryMap) (s : Scope) : Option memoryMap :=
  (unregister sMemoryMap s).1

/-! ## Docs -/

/-- `Doc::Trust`. -/
inductive Trust where
  | kUntrusted
  | kTrusted
deriving DecidableEq, Repr

/-- A Doc object: a Scope with the root value `_root` (null is `0`). -/
structure Doc extends Scope where
  root : Nat
deriving DecidableEq, Repr

/-- `Doc::init`.  The decoders `Value::fromTrustedData` and `Value::fromData` belong to
`Value.hh`, which is not among the sources; they are parameters, each giving the
address of the root value or null. -/
def Doc.init (fromTrustedData fromData : slice → Nat) (sMemoryMap : Option memoryMap)
    (d : Doc) (trust : Trust) : Option memoryMap × Doc :=
  if d.data.toBool then
    let root := if trust = Trust.kTrusted then fromTrustedData d.data else fromData d.data
    if root == 0 then
      let u := unregister sMemoryMap d.toScope
      (u.1, { toScope := { u.2 with isDoc := true }, root := root })
    else
      (sMemoryMap, { toScope := { d.toScope with isDoc := true }, root := root })
  else
    (sMemoryMap, { d with isDoc := true })

/-- `Doc::Doc(const alloc_slice &data, Trust, SharedKeys*, slice destination)`. -/
def Doc.new (cmp : SliceEq) (fromTrustedData fromData : slice → Nat)
    (sMemoryMap : Option memoryMap) (this : Nat) (data : slice) (trust : Trust)
    (sk : Nat) (destination : slice) : Except ErrorCode (Option memoryMap × Doc) :=
  match Scope.new cmp sMemoryMap this data sk destination with
  | .error x => .error x
  | .ok (m, s) => .ok (Doc.init fromTrustedData fromData m { toScope := s, root := 0 } trust)

/-- `Doc::Doc(const Scope &parentScope, slice subData, Trust)`. -/
def Doc.newSub (fromTrustedData fromData : slice → Nat) (sMemoryMap : Option memoryMap)
    (this : Nat) (parentScope : Scope) (subData : slice) (trust : Trust) :
    Except ErrorCode (Option memoryMap × Doc) :=
  match Scope.newSub sMemoryMap this parentScope subData with
  | .error x => .error x
  | .ok (m, s) => .ok (Doc.init fromTrustedData fromData m { toScope := s, root := 0 } trust)

/-! ## Registry states -/

/-- The registry states that arise from the initial state (null `sMemoryMap`) by
registrations that return and by unregistrations.  A Scope that registers is a new
object, so its address is not that of a registered Scope; a Scope that unregisters
with `_registered` set is one whose entry is in the registry. -/
inductive Reachable (cmp : SliceEq) : Option memoryMap → Prop where
  | init : Reachable cmp none
  | afterRegistr (r : Option memoryMap) (s : Scope) (r' : Option memoryMap) (s' : Scope) :
      Reachable cmp r → (∀ e ∈ entries r, e.2.addr ≠ s.addr) →
      registr cmp r s = .ok (r', s') → Reachable cmp r'
  | afterUnregister (r : Option memoryMap) (s : Scope) :
      Reachable cmp r → (s.registered = true → s.entry ∈ entries r) →
      Reachable cmp (unregister r s).1

/-- Two Scopes have the same configuration for `registr`: data, extern destination and
shared keys compare equal. -/
def sameConfig (cmp : SliceEq) (a b : ScopeRef) : Bool :=
  cmp.eq a.data b.data && cmp.eq a.externDestination b.externDestination && a.sk == b.sk

/-- The invariant of the registry: entries ascend by key, the key of an entry is the end
address of its Scope's data, and entries of equal key have the same configuration. -/
structure Inv (cmp : SliceEq) (m : memoryMap) : Prop where
  sorted : m.Pairwise (fun a b => a.1 ≤ b.1)
  key_eq : ∀ e ∈ m, e.1 = e.2.data.end_
  same : ∀ a ∈ m, ∀ b ∈ m, a.1 = b.1 → sameConfig cmp a.2 b.2 = true

/-- The byte ranges of two Scopes are disjoint. -/
def disjoint (a b : ScopeRef) : Prop :=
  a.data.end_ ≤ b.data.buf ∨ b.data.end_ ≤ a.data.buf

/-- The byte range of `a` lies within the byte range of `b`. -/
def within (a b : ScopeRef) : Prop :=
  b.data.buf ≤ a.data.buf ∧ a.data.end_ ≤ b.data.end_

/-- The registered ranges are pairwise disjoint or nested. -/
def Laminar (m : memoryMap) : Prop :=
  ∀ a ∈ m, ∀ b ∈ m, disjoint a.2 b.2 ∨ within a.2 b.2 ∨ within b.2 a.2

/-- The byte ranges of two Scopes overlap and neither contains the other. -/
def partialOverlap (a b : ScopeRef) : Prop :=
  a.data.buf < b.data.end_ ∧ b.data.buf < a.data.end_ ∧ ¬ within a b ∧ ¬ within b a

instance (a b : ScopeRef) : Decidable (disjoint a b) := by
  unfold disjoint
  infer_instance

instance (a b : ScopeRef) : Decidable (within a b) := by
  unfold within
  infer_instance

instance (m : memoryMap) : Decidable (Laminar m) := by
  unfold Laminar
  infer_instance

instance (a b : ScopeRef) : Decidable (partialOverlap a b) := by
  unfold partialOverlap
  infer_instance

/-- The check of `registr` fails: the entry before the insertion point has the key of
`s` and a different configuration. -/
def conflict (cmp : SliceEq) (m : memoryMap) (s : Scope) : Bool :=
  match (lowerPart m s.data.end_).getLast? with
  | some existing => existing.1 == s.data.end_ && !sameConfig cmp existing.2 s.toScopeRef
  | none => false

/-! ## The encoder of the C API -/

/-- Modelled from the spec: `fleece/Fleece.h` is not among the sources.  The error codes
exposed at the boundary, `kFLNoError` for the absence of an error and then the codes
the specification lists. -/
inductive FLError where
  | kFLNoError
  | kFLMemoryError
  | kFLOutOfRange
  | kFLInvalidData
  | kFLEncodeError
  | kFLJSONError
  | kFLUnknownValue
  | kFLPathSyntaxError
  | kFLInternalError
  | kFLNotFound
  | kFLSharedKeysStateError
  | kFLPOSIXError
  | kFLUnsupported
deriving DecidableEq, Repr

/-- The bytes of a slice handed across the C API. -/
abbrev Bytes := List Nat

/-- A caught `std::exception`: the code `FleeceException::getCode` gives for it and its
message `what()`. -/
structure Exn where
  code : FLError
  what : String
deriving DecidableEq, Repr

/-- Modelled from the spec: `Fleece+ImplGlue.hh` is not among the sources.  The members
of `FLEncoderImpl` that `Fleece.cc` uses: the error code and message, the binary
encoder (null for a JSON-format encoder), the JSON encoder (null for a binary-format
encoder), the JSON converter created on first use, and the extra info.  `Enc`, `JEnc`
and `Conv` are the states of the classes `Encoder`, `JSONEncoder` and `JSONConverter`,
which are not among the sources either. -/
structure FLEncoderImpl (Enc JEnc Conv : Type) where
  errorCode : FLError
  errorMessage : String
  fleeceEncoder : Option Enc
  jsonEncoder : Option JEnc
  jsonConverter : Option Conv
  extraInfo : Nat

/-- Modelled from the spec: `FLEncoderImpl::hasError`, the encoder is in the failed state,
which is when an error code has been recorded. -/
def FLEncoderImpl.hasError {Enc JEnc Conv : Type} (e : FLEncoderImpl Enc JEnc Conv) : Bool :=
  e.errorCode != FLError.kFLNoError

/-- Modelled from the spec: `FLEncoderImpl::isFleece`, the encoder is a binary-format
one, which is when it has a binary encoder. -/
def FLEncoderImpl.isFleece {Enc JEnc Conv : Type} (e : FLEncoderImpl Enc JEnc Conv) : Bool :=
  e.fleeceEncoder.isSome

/-- The code outside `Fleece.cc` that the encoder functions call, as parameters.  Each
call on a collaborator gives the collaborator's state after the call and either the
value returned or the exception thrown.  The JSON converter writes to the binary
encoder it was created on, so `encodeJSON` acts on both states.  `recordException`
and `reset` are the member functions of `FLEncoderImpl` of those names. -/
structure Glue (Enc JEnc Conv : Type) where
  converterNew : Enc → Except Exn Conv
  converterReset : Conv → Conv × Except Exn Unit
  encodeJSON : Conv → Enc → Bytes → (Conv × Enc) × Except Exn Bool
  converterErrorCode : Conv → FLError
  converterErrorMessage : Conv → String
  writeJSON : JEnc → Bytes → JEnc × Except Exn Unit
  finish : Enc → Enc × Except Exn (Option Bytes)
  jsonFinish : JEnc → JEnc × Except Exn (Option Bytes)
  finishDoc : Enc → Enc × Except Exn Nat
  recordException : FLEncoderImpl Enc JEnc Conv → Exn → FLEncoderImpl Enc JEnc Conv
  reset : FLEncoderImpl Enc JEnc Conv → FLEncoderImpl Enc JEnc Conv

/-- The first statements of the binary branch of `FLEncoder_ConvertJSON`: reset the
converter of the encoder, or create one on the binary encoder and store it.  Gives the
converter member afterwards and the converter to use, or the exception thrown. -/
def prepareConverter {Enc JEnc Conv : Type} (g : Glue Enc JEnc Conv)
    (jsonConverter : Option Conv) (enc : Enc) : Option Conv × Except Exn Conv :=
  match jsonConverter with
  | some jc =>
    let r := g.converterReset jc
    match r.2 with
    | .ok _ => (some r.1, .ok r.1)
    | .error x => (some r.1, .error x)
  | none =>
    match g.converterNew enc with
    | .ok jc => (some jc, .ok jc)
    | .error x => (none, .error x)

/-- `FLEncoder_ConvertJSON`: the value returned and the encoder afterwards.  An
exception thrown inside the `try` block is handed to `recordException`. -/
def FLEncoder_ConvertJSON {Enc JEnc Conv : Type} (g : Glue Enc JEnc Conv)
    (e : FLEncoderImpl Enc JEnc Conv) (json : Bytes) : Bool × FLEncoderImpl Enc JEnc Conv :=
  if !e.hasError then
    if e.isFleece then
      match e.fleeceEncoder with
      | none => (false, e)
      | some enc =>
        let prepared := prepareConverter g e.jsonConverter enc
        let e0 := { e with jsonConverter := prepared.1 }
        match prepared.2 with
        | .error x => (false, g.recordException e0 x)
        | .ok jc =>
          let r := g.encodeJSON jc enc json
          let e1 := { e0 with jsonConverter := some r.1.1, fleeceEncoder := some r.1.2 }
          match r.2 with
          | .error x => (false, g.recordException e1 x)
          | .ok true => (true, e1)
          | .ok false =>
            (false, { e1 with errorCode := g.converterErrorCode r.1.1,
                              errorMessage := g.converterErrorMessage r.1.1 })
    else
      match e.jsonEncoder with
      | none => (false, e)
      | some je =>
        let r := g.writeJSON je json
        let e1 := { e with jsonEncoder := some r.1 }
        match r.2 with
        | .error x => (false, g.recordException e1 x)
        | .ok _ => (false, e1)
  else
    (false, e)

/-- The failure exit shared by `FLEncoder_Finish` and `FLEncoder_FinishDoc`: store the
error code through `outError` when it is not null, then reset the encoder.  A null
`outError` is `none`, a non-null one is `some` of the value it points to. -/
def finishFailure {Enc JEnc Conv : Type} (g : Glue Enc JEnc Conv)
    (e : FLEncoderImpl Enc JEnc Conv) (outError : Option FLError) :
    Option FLError × FLEncoderImpl Enc JEnc Conv :=
  (outError.map (fun _ => e.errorCode), g.reset e)

/-- `FLEncoder_Finish`: the result (null is `none`), the value behind `outError`
afterwards, and the encoder afterwards.  The macro `ENCODER_DO` of the absent
`Fleece+ImplGlue.hh` calls `finish()` on the binary encoder of a binary-format encoder
and on the JSON encoder of a JSON-format one. -/
def FLEncoder_Finish {Enc JEnc Conv : Type} (g : Glue Enc JEnc Conv)
    (e : FLEncoderImpl Enc JEnc Conv) (outError : Option FLError) :
    Option Bytes × Option FLError × FLEncoderImpl Enc JEnc Conv :=
  if !e.hasError then
    if e.isFleece then
      match e.fleeceEncoder with
      | none => (none, finishFailure g e outError)
      | some enc =>
        let r := g.finish enc
        let e1 := { e with fleeceEncoder := some r.1 }
        match r.2 with
        | .ok result => (result, outError, e1)
        | .error x => (none, finishFailure g (g.recordException e1 x) outError)
    else
      match e.jsonEncoder with
      | none => (none, finishFailure g e outError)
      | some je =>
        let r := g.jsonFinish je
        let e1 := { e with jsonEncoder := some r.1 }
        match r.2 with
        | .ok result => (result, outError, e1)
        | .error x => (none, finishFailure g (g.recordException e1 x) outError)
  else
    (none, finishFailure g e outError)

/-- `FLEncoder_FinishDoc`: the Doc returned (null is `0`), the value behind `outError`
afterwards, and the encoder afterwards. -/
def FLEncoder_FinishDoc {Enc JEnc Conv : Type} (g : Glue Enc JEnc Conv)
    (e : FLEncoderImpl Enc JEnc Conv) (outError : Option FLError) :
    Nat × Option FLError × FLEncoderImpl Enc JEnc Conv :=
  match e.fleeceEncoder with
  | some enc =>
    if !e.hasError then
      let r := g.finishDoc enc
      let e1 := { e with fleeceEncoder := some r.1 }
      match r.2 with
      | .ok doc => (doc, outError, e1)
      | .error x => (0, finishFailure g (g.recordException e1 x) outError)
    else
      (0, finishFailure g e outError)
  | none =>
    (0, finishFailure g { e with errorCode := FLError.kFLUnsupported } outError)

/-! ## Concrete registry states -/

/-- A Scope object as its constructor leaves it before `registr` runs: at address `this`,
without shared keys or extern destination. -/
def exScope (this : Nat) (data : slice) : Scope :=
  Scope.initial this data 0 nullslice

/-- The registry after Scopes over `[100, 200)` and over the nested `[120, 150)` have
registered. -/
def exNested : Option memoryMap :=
  some [(150, (exScope 2 ⟨120, 30⟩).toScopeRef), (200, (exScope 1 ⟨100, 100⟩).toScopeRef)]

/-- The registry after one Scope over `[100, 200)` has registered. -/
def exSingle : Option memoryMap :=
  some [(200, (exScope 1 ⟨100, 100⟩).toScopeRef)]

/-- The registry after Scopes over `[100, 300)`, `[110, 200)` and `[150, 180)`, each
nested in the one before, have registered. -/
def exChain : Option memoryMap :=
  some [(180, (exScope 3 ⟨150, 30⟩).toScopeRef), (200, (exScope 2 ⟨110, 90⟩).toScopeRef),
    (300, (exScope 1 ⟨100, 200⟩).toScopeRef)]

/-! ## Concrete encoders -/

/-- Collaborators without state: every call returns, the converter rejects every input,
and `recordException` and `reset` are as the specification describes them (the first
error is kept; reset clears the error). -/
def exGlue : Glue Unit Unit Unit where
  converterNew _ := .ok ()
  converterReset _ := ((), .ok ())
  encodeJSON _ _ _ := (((), ()), .ok false)
  converterErrorCode _ := FLError.kFLJSONError
  converterErrorMessage _ := "JSON error"
  writeJSON _ _ := ((), .ok ())
  finish _ := ((), .ok (some []))
  jsonFinish _ := ((), .ok (some []))
  finishDoc _ := ((), .ok 1)
  recordException e x :=
    if e.hasError then e else { e with errorCode := x.code, errorMessage := x.what }
  reset e := { e with errorCode := FLError.kFLNoError, extraInfo := 0 }

/-- A JSON-format encoder in the failed state, with the error code `kFLEncodeError`. -/
def exFailedJSONEncoder : FLEncoderImpl Unit Unit Unit :=
  { errorCode := FLError.kFLEncodeError, errorMessage := "encode error",
    fleeceEncoder := none, jsonEncoder := some (), jsonConverter := none, extraInfo := 0 }

/-- A binary-format encoder in the failed state, with the error code `kFLJSONError`. -/
def exFailedEncoder : FLEncoderImpl Unit Unit Unit :=
  { errorCode := FLError.kFLJSONError, errorMessage := "JSON error",
    fleeceEncoder := some (), jsonEncoder := none, jsonConverter := some (), extraInfo := 0 }

/-- A JSON-format encoder that is not in the failed state. -/
def exJSONEncoder : FLEncoderImpl Unit Unit Unit :=
  { errorCode := FLError.kFLNoError, errorMessage := "",
    fleeceEncoder := none, jsonEncoder := some (), jsonConverter := none, extraInfo := 0 }

/-- The registry after two Scopes over `[100, 200)`, at the addresses 1 and 5, have
registered. -/
def exDuplicate : Option memoryMap :=
  some [(200, (exScope 1 ⟨100, 100⟩).toScopeRef), (200, (exScope 5 ⟨100, 100⟩).toScopeRef)]

/-- A memory in which every byte is zero. -/
def exZeroMemory : Nat → Nat := fun _ => 0

/-- A Scope object before `registr` runs, over `[100, 200)`, without shared keys and
with the extern destination given. -/
def exExternScope (this : Nat) (destination : slice) : Scope :=
  Scope.initial this ⟨100, 100⟩ 0 destination

/-- The registry after one Scope over `[100, 200)` with extern destination `[300, 310)`
has registered. -/
def exExternSingle : Option memoryMap :=
  some [(200, (exExternScope 1 ⟨300, 10⟩).toScopeRef)]

/-- The registry after a second Scope over `[100, 200)`, with extern destination
`[400, 410)`, has registered as well. -/
def exExternPair : Option memoryMap :=
  some [(200, (exExternScope 1 ⟨300, 10⟩).toScopeRef),
    (200, (exExternScope 5 ⟨400, 10⟩).toScopeRef)]

/-! ## The value accessors of the C API -/

/-- Modelled from the spec: the type tags of `Value::type()` (`Value.hh` is not among
the sources).  The numeric kinds share one tag; an undefined value has the tag of null
and is told apart by `isUndefined`. -/
inductive valueType where
  | kNull
  | kBoolean
  | kNumber
  | kString
  | kData
  | kArray
  | kDict
deriving DecidableEq, Repr

/-- Modelled from the spec: the type tags of the C API (`fleece/Fleece.h` is not among
the sources): those of `valueType`, and `kFLUndefined` before them. -/
inductive FLValueType where
  | kFLUndefined
  | kFLNull
  | kFLBoolean
  | kFLNumber
  | kFLString
  | kFLData
  | kFLArray
  | kFLDict
deriving DecidableEq, Repr

/-- The cast `(FLValueType)` of a `valueType`: the tag of the same numeric value. -/
def valueType.toFLValueType : valueType → FLValueType
  | .kNull => .kFLNull
  | .kBoolean => .kFLBoolean
  | .kNumber => .kFLNumber
  | .kString => .kFLString
  | .kData => .kFLData
  | .kArray => .kFLArray
  | .kDict => .kFLDict

/-- The member functions of `Value`, `Array` and `Dict` that the accessors of
`Fleece.cc` call, and the constant `FLTimestampNone` of `Fleece.h`, as parameters:
their sources are absent.  A value, array or dict is given by its address. -/
structure ValueImpl where
  isUndefined : Nat → Bool
  type : Nat → valueType
  isInteger : Nat → Bool
  isUnsigned : Nat → Bool
  isDouble : Nat → Bool
  asBool : Nat → Bool
  asInt : Nat → Int
  asUnsigned : Nat → Nat
  asFloat : Nat → Float
  asDouble : Nat → Float
  asString : Nat → slice
  asData : Nat → slice
  asArray : Nat → Nat
  asDict : Nat → Nat
  asTimestamp : Nat → Int
  FLTimestampNone : Int
  arrayCount : Nat → Nat
  arrayEmpty : Nat → Bool
  arrayGet : Nat → Nat → Nat
  dictCount : Nat → Nat
  dictEmpty : Nat → Bool
  dictGet : Nat → Bytes → Nat
  dictGetWithKey : Nat → Nat → Nat

/-- `FLValue_GetType`. -/
def FLValue_GetType (impl : ValueImpl) (v : Nat) : FLValueType :=
  if v == 0 || impl.isUndefined v then FLValueType.kFLUndefined
  else (impl.type v).toFLValueType

/-- `FLValue_IsInteger`. -/
def FLValue_IsInteger (impl : ValueImpl) (v : Nat) : Bool := v != 0 && impl.isInteger v

/-- `FLValue_IsUnsigned`. -/
def FLValue_IsUnsigned (impl : ValueImpl) (v : Nat) : Bool := v != 0 && impl.isUnsigned v

/-- `FLValue_IsDouble`. -/
def FLValue_IsDouble (impl : ValueImpl) (v : Nat) : Bool := v != 0 && impl.isDouble v

/-- `FLValue_AsBool`. -/
def FLValue_AsBool (impl : ValueImpl) (v : Nat) : Bool := v != 0 && impl.asBool v

/-- `FLValue_AsInt`. -/
def FLValue_AsInt (impl : ValueImpl) (v : Nat) : Int := if v != 0 then impl.asInt v else 0

/-- `FLValue_AsUnsigned`. -/
def FLValue_AsUnsigned (impl : ValueImpl) (v : Nat) : Nat :=
  if v != 0 then impl.asUnsigned v else 0

/-- `FLValue_AsFloat`. -/
def FLValue_AsFloat (impl : ValueImpl) (v : Nat) : Float :=
  if v != 0 then impl.asFloat v else 0.0

/-- `FLValue_AsDouble`. -/
def FLValue_AsDouble (impl : ValueImpl) (v : Nat) : Float :=
  if v != 0 then impl.asDouble v else 0.0

/-- `FLValue_AsString`; `kFLSliceNull` is the null slice. -/
def FLValue_AsString (impl : ValueImpl) (v : Nat) : slice :=
  if v != 0 then impl.asString v else nullslice

/-- `FLValue_AsData`. -/
def FLValue_AsData (impl : ValueImpl) (v : Nat) : slice :=
  if v != 0 then impl.asData v else nullslice

/-- `FLValue_AsArray`. -/
def FLValue_AsArray (impl : ValueImpl) (v : Nat) : Nat := if v != 0 then impl.asArray v else 0

/-- `FLValue_AsDict`. -/
def FLValue_AsDict (impl : ValueImpl) (v : Nat) : Nat := if v != 0 then impl.asDict v else 0

/-- `FLValue_AsTimestamp`. -/
def FLValue_AsTimestamp (impl : ValueImpl) (v : Nat) : Int :=
  if v != 0 then impl.asTimestamp v else impl.FLTimestampNone

/-- `FLArray_Count`. -/
def FLArray_Count (impl : ValueImpl) (a : Nat) : Nat := if a != 0 then impl.arrayCount a else 0

/-- `FLArray_IsEmpty`. -/
def FLArray_IsEmpty (impl : ValueImpl) (a : Nat) : Bool :=
  if a != 0 then impl.arrayEmpty a else true

/-- `FLArray_Get`. -/
def FLArray_Get (impl : ValueImpl) (a : Nat) (index : Nat) : Nat :=
  if a != 0 then impl.arrayGet a index else 0

/-- `FLDict_Count`. -/
def FLDict_Count (impl : ValueImpl) (d : Nat) : Nat := if d != 0 then impl.dictCount d else 0

/-- `FLDict_IsEmpty`. -/
def FLDict_IsEmpty (impl : ValueImpl) (d : Nat) : Bool :=
  if d != 0 then impl.dictEmpty d else true

/-- `FLDict_Get`. -/
def FLDict_Get (impl : ValueImpl) (d : Nat) (keyString : Bytes) : Nat :=
  if d != 0 then impl.dictGet d keyString else 0

/-- `FLDict_GetWithKey`; the key is given by the address `k` of the `FLDictKey`. -/
def FLDict_GetWithKey (impl : ValueImpl) (d : Nat) (k : Nat) : Nat :=
  if d == 0 then 0 else impl.dictGetWithKey d k

/-! ## Iterators of the C API -/

/-- Modelled from the spec: `Array::iterator` (`Array.hh` is not among the sources), a
finite forward-only iterator that holds its current index; `count` is the number of
items of the array it runs over, none for a null array. -/
structure ArrayIterator where
  index : Nat
  count : Nat
deriving DecidableEq, Repr

/-- Modelled from the spec: `Array::iterator::operator++`.  Advancing past the end is an
error ("throws if iterating past end"): an iterator that stands on an item moves to the
next position, one that stands at the end throws `OutOfRange`. -/
def ArrayIterator.advance (i : ArrayIterator) : Except Exn ArrayIterator :=
  if i.index < i.count then .ok { i with index := i.index + 1 }
  else .error ⟨FLError.kFLOutOfRange, "iterating past end of array"⟩

/-- Modelled from the spec: `Array::iterator::operator bool`, the iterator stands on an
item. -/
def ArrayIterator.toBool (i : ArrayIterator) : Bool := decide (i.index < i.count)

/-- `FLArrayIterator_Begin` on an array of `n` items (`n` is 0 for a null array). -/
def FLArrayIterator_Begin (n : Nat) : ArrayIterator := { index := 0, count := n }

/-- `FLArrayIterator_Next`: the value returned and the iterator afterwards.  The macro
`catchError(nullptr)` of the absent `Fleece+ImplGlue.hh` catches the exception and has
no place to record it, after which the function returns false. -/
def FLArrayIterator_Next (i : ArrayIterator) : Bool × ArrayIterator :=
  match i.advance with
  | .ok iter => (iter.toBool, iter)
  | .error _ => (false, i)

/-- Modelled from the spec: `Dict::iterator` (`Dict.hh` is not among the sources), which
runs over the entries of a map the way `Array::iterator` runs over the items of an
array. -/
structure DictIterator where
  index : Nat
  count : Nat
deriving DecidableEq, Repr

/-- Modelled from the spec: `Dict::iterator::operator++`, which throws past the end. -/
def DictIterator.advance (i : DictIterator) : Except Exn DictIterator :=
  if i.index < i.count then .ok { i with index := i.index + 1 }
  else .error ⟨FLError.kFLOutOfRange, "iterating past end of dict"⟩

/-- Modelled from the spec: `Dict::iterator::operator bool`. -/
def DictIterator.toBool (i : DictIterator) : Bool := decide (i.index < i.count)

/-- `FLDictIterator_Begin` on a map of `n` entries (`n` is 0 for a null map). -/
def FLDictIterator_Begin (n : Nat) : DictIterator := { index := 0, count := n }

/-- `FLDictIterator_Next`: the value returned and the iterator afterwards.  The
destructor that runs at the end of the iteration releases what the iterator holds and
leaves its position as it is. -/
def FLDictIterator_Next (i : DictIterator) : Bool × DictIterator :=
  match i.advance with
  | .ok iter => if iter.toBool then (true, iter) else (false, iter)
  | .error _ => (false, i)

/-- The values returned by `k` successive calls of `FLArrayIterator_Next`. -/
def arrayNextResults : Nat → ArrayIterator → List Bool
  | 0, _ => []
  | k + 1, i => (FLArrayIterator_Next i).1 :: arrayNextResults k (FLArrayIterator_Next i).2

/-- The values returned by `k` successive calls of `FLDictIterator_Next`. -/
def dictNextResults : Nat → DictIterator → List Bool
  | 0, _ => []
  | k + 1, i => (FLDictIterator_Next i).1 :: dictNextResults k (FLDictIterator_Next i).2

/-! ## Shared keys of the C API -/

/-- Modelled from the spec: the operations of `SharedKeys` (`SharedKeys.hh` is not among
the sources) on a table of state `SK`.  `encode(s)` returns the existing code of `s` or
"not mapped" and does not change the table; `encodeAndAdd(s)` may assign a new code
and gives the table afterwards.  A code is a non-negative integer; `none` stands for
the result false of the C++ function, which leaves no code. -/
structure SharedKeysImpl (SK : Type) where
  encode : SK → Bytes → Option Nat
  encodeAndAdd : SK → Bytes → SK × Option Nat

/-- `FLSharedKeys_Encode`: the value returned and the table afterwards. -/
def FLSharedKeys_Encode {SK : Type} (impl : SharedKeysImpl SK) (sk : SK) (keyStr : Bytes)
    (add : Bool) : Int × SK :=
  let r := if add then impl.encodeAndAdd sk keyStr else (sk, impl.encode sk keyStr)
  match r.2 with
  | some intKey => ((intKey : Int), r.1)
  | none => (-1, r.1)

/-! ## JSON5 conversion of the C API -/

/-- How a call of `ConvertJSON5` (`JSON5.hh` is not among the sources) ends: with the
converted JSON, with a `json5_error` carrying its message and input position, or with
another exception. -/
inductive JSON5Outcome where
  | ok (json : String)
  | json5_error (what : String) (inputPos : Nat)
  | exception (x : Exn)
deriving DecidableEq, Repr

/-- `fleece::impl::recordError`: store the code of the exception through `outError` when
it is not null. -/
def recordError (x : Exn) (outError : Option FLError) : Option FLError :=
  outError.map (fun _ => x.code)

/-- `FLJSON5_ToJSON`: the result (null is `none`) and the values behind
`outErrorMessage`, `outErrorPos` and `error` afterwards; a null out-pointer is `none`,
a non-null one is `some` of the value it points to. -/
def FLJSON5_ToJSON (ConvertJSON5 : String → JSON5Outcome) (json5 : String)
    (outErrorMessage : Option (Option String)) (outErrorPos : Option Nat)
    (error : Option FLError) :
    Option String × Option (Option String) × Option Nat × Option FLError :=
  match ConvertJSON5 json5 with
  | .ok json => (some json, outErrorMessage, outErrorPos, error)
  | .json5_error what inputPos =>
    (none, outErrorMessage.map (fun _ => some what), outErrorPos.map (fun _ => inputPos),
      error.map (fun _ => FLError.kFLJSONError))
  | .exception x =>
    (none, outErrorMessage.map (fun _ => some x.what), outErrorPos.map (fun _ => 0),
      recordError x error)

/-! ## One-shot JSON conversion of the C API -/

/-- Modelled from the spec: the constructor `FLEncoderImpl(kFLEncodeFleece, reserveSize)`
of the absent `Fleece+ImplGlue.hh`: a binary-format encoder without error, with a new
binary encoder (`newEncoder` stands for the constructor of `Encoder`) and neither JSON
encoder nor JSON converter. -/
def FLEncoderImpl.newFleece {Enc JEnc Conv : Type} (newEncoder : Nat → Enc)
    (reserveSize : Nat) : FLEncoderImpl Enc JEnc Conv :=
  { errorCode := FLError.kFLNoError, errorMessage := "",
    fleeceEncoder := some (newEncoder reserveSize), jsonEncoder := none,
    jsonConverter := none, extraInfo := 0 }

/-- `FLData_ConvertJSON`: the result (null is `none`) and the value behind `outError`
afterwards. -/
def FLData_ConvertJSON {Enc JEnc Conv : Type} (g : Glue Enc JEnc Conv)
    (newEncoder : Nat → Enc) (json : Bytes) (outError : Option FLError) :
    Option Bytes × Option FLError :=
  let e : FLEncoderImpl Enc JEnc Conv := FLEncoderImpl.newFleece newEncoder json.length
  let c := FLEncoder_ConvertJSON g e json
  let f := FLEncoder_Finish g c.2 outError
  (f.1, f.2.1)

/-! ## Lemmas on the registry -/

/-- The comparison of slices as byte ranges holds exactly of equal slices. -/
theorem rangeEq_eq_iff (a b : slice) : rangeEq.eq a b = true ↔ a = b := by
  cases a
  cases b
  simp [rangeEq]

theorem sameConfig_refl (cmp : SliceEq) (a : ScopeRef) : sameConfig cmp a a = true := by
  simp [sameConfig, cmp.refl]

theorem sameConfig_symm (cmp : SliceEq) {a b : ScopeRef} (h : sameConfig cmp a b = true) :
    sameConfig cmp b a = true := by
  simp only [sameConfig, Bool.and_eq_true, beq_iff_eq] at h ⊢
  exact ⟨⟨cmp.symm _ _ h.1.1, cmp.symm _ _ h.1.2⟩, h.2.symm⟩

theorem sameConfig_trans (cmp : SliceEq) {a b c : ScopeRef} (h1 : sameConfig cmp a b = true)
    (h2 : sameConfig cmp b c = true) : sameConfig cmp a c = true := by
  simp only [sameConfig, Bool.and_eq_true, beq_iff_eq] at h1 h2 ⊢
  exact ⟨⟨cmp.trans _ _ _ h1.1.1 h2.1.1, cmp.trans _ _ _ h1.1.2 h2.1.2⟩, h1.2.trans h2.2⟩

/-- Scopes of the same configuration whose data end at the same address have the same
data range. -/
theorem data_eq_of_sameConfig (cmp : SliceEq) {a b : ScopeRef}
    (h : sameConfig cmp a b = true) (hend : a.data.end_ = b.data.end_) : a.data = b.data := by
  simp only [sameConfig, Bool.and_eq_true, beq_iff_eq] at h
  have hs := cmp.size_eq _ _ h.1.1
  have : a.data.buf = b.data.buf := by
    simp only [slice.end_] at hend
    omega
  cases ha : a.data
  cases hb : b.data
  simp_all

theorem mem_takeWhile_le (m : memoryMap) (key : Nat) :
    ∀ e ∈ m.takeWhile (fun e => decide (e.1 ≤ key)), e.1 ≤ key := by
  intro e he
  have := List.mem_takeWhile_imp he
  simpa using this

theorem mem_dropWhile_gt (m : memoryMap) (key : Nat)
    (hs : m.Pairwise (fun a b => a.1 ≤ b.1)) :
    ∀ e ∈ m.dropWhile (fun e => decide (e.1 ≤ key)), key < e.1 := by
  induction m with
  | nil => simp
  | cons x xs ih =>
    intro e he
    rw [List.pairwise_cons] at hs
    by_cases hx : x.1 ≤ key
    · rw [List.dropWhile_cons_of_pos (by simpa using hx)] at he
      exact ih hs.2 e he
    · rw [List.dropWhile_cons_of_neg (by simpa using hx)] at he
      rcases List.mem_cons.1 he with rfl | h
      · omega
      · have := hs.1 e h
        omega

theorem mem_takeWhile_of_le (m : memoryMap) (key : Nat)
    (hs : m.Pairwise (fun a b => a.1 ≤ b.1)) :
    ∀ e ∈ m, e.1 ≤ key → e ∈ m.takeWhile (fun e => decide (e.1 ≤ key)) := by
  intro e he hle
  have h := List.takeWhile_append_dropWhile (fun e : Nat × ScopeRef => decide (e.1 ≤ key)) m
  rw [← h] at he
  rcases List.mem_append.1 he with h1 | h2
  · exact h1
  · have := mem_dropWhile_gt m key hs e h2
    omega

theorem registr_eq (cmp : SliceEq) (r : Option memoryMap) (s : Scope) :
    registr cmp r s =
      if conflict cmp (entries r) s then .error ErrorCode.InternalError
      else .ok (some (lowerPart (entries r) s.data.end_ ++
              s.entry :: upperPart (entries r) s.data.end_),
            { s with registered := true }) := by
  unfold registr conflict sameConfig Scope.entry
  dsimp only
  generalize (lowerPart (entries r) s.data.end_).getLast? = o
  cases o with
  | none => simp
  | some existing =>
    by_cases hk : existing.1 = s.data.end_
    · by_cases hc : (cmp.eq existing.2.data s.data
          && cmp.eq existing.2.externDestination s.externDestination
          && existing.2.sk == s.sk) = true
      · simp only [Bool.and_eq_true, beq_iff_eq] at hc
        simp [hk, hc]
      · simp only [Bool.not_eq_true] at hc
        simp only [hk, beq_self_eq_true, if_true, hc, Bool.false_eq_true, if_false,
          Bool.true_and, Bool.not_false]
    · simp [hk]

theorem lower_append_upper (m : memoryMap) (key : Nat) :
    lowerPart m key ++ upperPart m key = m :=
  List.takeWhile_append_dropWhile _ m

theorem le_getLast_of_sorted (l : memoryMap) (hs : l.Pairwise (fun a b => a.1 ≤ b.1))
    (x : Nat × ScopeRef) (hx : l.getLast? = some x) : ∀ b ∈ l, b.1 ≤ x.1 := by
  intro b hb
  have hl : l = l.dropLast ++ [x] := (List.dropLast_append_getLast? x hx).symm
  rw [hl] at hs hb
  rw [List.pairwise_append] at hs
  rcases List.mem_append.1 hb with h | h
  · exact hs.2.2 b h x (by simp)
  · simp at h
    rw [h]

/-- An entry of `m` with the key of `s` forces the entry before the insertion point to
have that key. -/
theorem getLast_lower_of_mem (m : memoryMap) (key : Nat)
    (hs : m.Pairwise (fun a b => a.1 ≤ b.1)) (b : Nat × ScopeRef) (hb : b ∈ m)
    (hk : b.1 = key) :
    ∃ x, (lowerPart m key).getLast? = some x ∧ x ∈ m ∧ x.1 = key := by
  have hbl : b ∈ lowerPart m key := mem_takeWhile_of_le m key hs b hb (by omega)
  have hne : lowerPart m key ≠ [] := List.ne_nil_of_mem hbl
  obtain ⟨x, hx⟩ : ∃ x, (lowerPart m key).getLast? = some x := by
    cases h : (lowerPart m key).getLast? with
    | none => exact absurd (List.getLast?_eq_none_iff.1 h) hne
    | some x => exact ⟨x, rfl⟩
  have hxl : x ∈ lowerPart m key := List.mem_of_getLast?_eq_some hx
  have hsub : (lowerPart m key).Sublist m := List.takeWhile_sublist _
  have h1 : b.1 ≤ x.1 := le_getLast_of_sorted _ (hs.sublist hsub) x hx b hbl
  have h2 : x.1 ≤ key := mem_takeWhile_le m key x hxl
  exact ⟨x, hx, hsub.subset hxl, by omega⟩

theorem Inv.nil (cmp : SliceEq) : Inv cmp [] :=
  ⟨List.Pairwise.nil, by simp, by simp⟩

theorem Inv.erase (cmp : SliceEq) {m : memoryMap} (h : Inv cmp m) (e : Nat × ScopeRef) :
    Inv cmp (m.erase e) :=
  ⟨h.sorted.sublist (List.erase_sublist e m),
   fun x hx => h.key_eq x (List.mem_of_mem_erase hx),
   fun a ha b hb => h.same a (List.mem_of_mem_erase ha) b (List.mem_of_mem_erase hb)⟩

theorem Inv.insert (cmp : SliceEq) {m : memoryMap} (h : Inv cmp m) (s : Scope)
    (hc : conflict cmp m s = false) :
    Inv cmp (lowerPart m s.data.end_ ++ s.entry :: upperPart m s.data.end_) := by
  have hlow : ∀ e ∈ lowerPart m s.data.end_, e.1 ≤ s.data.end_ := mem_takeWhile_le m _
  have hup : ∀ e ∈ upperPart m s.data.end_, s.data.end_ < e.1 := mem_dropWhile_gt m _ h.sorted
  have hlsub : (lowerPart m s.data.end_).Sublist m := List.takeWhile_sublist _
  have husub : (upperPart m s.data.end_).Sublist m := (List.dropWhile_suffix _).sublist
  have hmem : ∀ e, e ∈ lowerPart m s.data.end_ ++ s.entry :: upperPart m s.data.end_ →
      e = s.entry ∨ e ∈ m := by
    intro e he
    rcases List.mem_append.1 he with h1 | h1
    · exact Or.inr (hlsub.subset h1)
    · rcases List.mem_cons.1 h1 with h2 | h2
      · exact Or.inl h2
      · exact Or.inr (husub.subset h2)
  have hnew : ∀ b ∈ m, b.1 = s.data.end_ → sameConfig cmp b.2 s.toScopeRef = true := by
    intro b hb hk
    obtain ⟨x, hx, hxm, hxk⟩ := getLast_lower_of_mem m _ h.sorted b hb hk
    have hbx : sameConfig cmp b.2 x.2 = true := h.same b hb x hxm (by omega)
    have hxs : sameConfig cmp x.2 s.toScopeRef = true := by
      unfold conflict at hc
      rw [hx] at hc
      simpa [hxk] using hc
    exact sameConfig_trans cmp hbx hxs
  refine ⟨?_, ?_, ?_⟩
  · rw [List.pairwise_append]
    refine ⟨h.sorted.sublist hlsub, ?_, ?_⟩
    · rw [List.pairwise_cons]
      refine ⟨fun e he => ?_, h.sorted.sublist husub⟩
      have := hup e he
      simp only [Scope.entry]
      omega
    · intro a ha b hb
      have h1 := hlow a ha
      rcases List.mem_cons.1 hb with h2 | h2
      · rw [h2]
        exact h1
      · have := hup b h2
        omega
  · intro e he
    rcases hmem e he with h1 | h1
    · rw [h1]
      rfl
    · exact h.key_eq e h1
  · intro a ha b hb hab
    rcases hmem a ha with h1 | h1 <;> rcases hmem b hb with h2 | h2
    · rw [h1, h2]
      exact sameConfig_refl cmp _
    · rw [h1] at hab ⊢
      exact sameConfig_symm cmp (hnew b h2 hab.symm)
    · rw [h2] at hab ⊢
      exact hnew a h1 hab
    · exact h.same a h1 b h2 hab

/-- Every reachable registry state satisfies the invariant. -/
theorem Reachable.inv {cmp : SliceEq} {r : Option memoryMap} (h : Reachable cmp r) :
    Inv cmp (entries r) := by
  induction h with
  | init => exact Inv.nil cmp
  | afterRegistr r s r' s' _ _ hreg ih =>
    rw [registr_eq] at hreg
    by_cases hc : conflict cmp (entries r) s = true
    · simp [hc] at hreg
    · simp only [Bool.not_eq_true] at hc
      simp only [hc, Bool.false_eq_true, if_false, Except.ok.injEq, Prod.mk.injEq] at hreg
      rw [← hreg.1]
      exact Inv.insert cmp ih s hc
  | afterUnregister r s _ _ ih =>
    unfold unregister
    by_cases hreg : s.registered = true
    · cases r with
      | none => simpa [hreg] using Inv.nil cmp
      | some m =>
        simp only [hreg, if_true, Option.map_some', entries, Option.getD_some]
        exact Inv.erase cmp ih _
    · simpa [hreg] using ih

theorem contains_nat (s : slice) (p : Nat) :
    s.contains (p : Int) = true ↔ s.buf ≤ p ∧ p < s.end_ := by
  simp [slice.contains]

theorem containing_eq (r : Option memoryMap) (p : Nat) :
    containing r p =
      match (entries r).find? (fun e => decide (p < e.1)) with
      | none => none
      | some i => if p < i.2.data.buf then none else some i.2 := by
  cases r <;> simp [containing, _containing, entries]

/-- The entry found by `upper_bound` has the least key above `p`. -/
theorem find_upper_min (m : memoryMap) (hs : m.Pairwise (fun a b => a.1 ≤ b.1)) (p : Nat)
    (e : Nat × ScopeRef) (h : m.find? (fun e => decide (p < e.1)) = some e) :
    ∀ x ∈ m, p < x.1 → e.1 ≤ x.1 := by
  obtain ⟨_, l₁, l₂, hm, hl⟩ := List.find?_eq_some.1 h
  intro x hx hpx
  rw [hm] at hx hs
  rw [List.pairwise_append, List.pairwise_cons] at hs
  rcases List.mem_append.1 hx with h1 | h1
  · have := hl x h1
    simp at this
    omega
  · rcases List.mem_cons.1 h1 with h2 | h2
    · rw [h2]
    · exact hs.2.1.1 x h2

theorem exSingle_reachable : Reachable rangeEq exSingle :=
  Reachable.afterRegistr none (exScope 1 ⟨100, 100⟩) exSingle
    { exScope 1 ⟨100, 100⟩ with registered := true } Reachable.init (by decide) rfl

theorem exNested_reachable : Reachable rangeEq exNested :=
  Reachable.afterRegistr exSingle (exScope 2 ⟨120, 30⟩) exNested
    { exScope 2 ⟨120, 30⟩ with registered := true } exSingle_reachable (by decide) rfl

theorem exChain_reachable : Reachable rangeEq exChain :=
  Reachable.afterRegistr
    (some [(200, (exScope 2 ⟨110, 90⟩).toScopeRef), (300, (exScope 1 ⟨100, 200⟩).toScopeRef)])
    (exScope 3 ⟨150, 30⟩) exChain { exScope 3 ⟨150, 30⟩ with registered := true }
    (Reachable.afterRegistr (some [(300, (exScope 1 ⟨100, 200⟩).toScopeRef)])
      (exScope 2 ⟨110, 90⟩) _ { exScope 2 ⟨110, 90⟩ with registered := true }
      (Reachable.afterRegistr none (exScope 1 ⟨100, 200⟩) _
        { exScope 1 ⟨100, 200⟩ with registered := true } Reachable.init (by decide) rfl)
      (by decide) rfl)
    (by decide) rfl

/-! ## C1 -/

/-- C1, as stated, fails: with Scopes over `[100, 200)` and over the nested `[120, 150)`
registered, the address 110 lies in the range of exactly one registered Scope, the
first, and `Scope::containing(110)` returns null. -/
theorem containing_unique_range_counterexample :
    Reachable rangeEq exNested ∧
    (exScope 1 ⟨100, 100⟩).entry ∈ entries exNested ∧
    (exScope 1 ⟨100, 100⟩).data.contains 110 = true ∧
    (∀ e ∈ entries exNested, e.2.data.contains 110 = true →
      e.2 = (exScope 1 ⟨100, 100⟩).toScopeRef) ∧
    containing exNested 110 = none :=
  ⟨exNested_reachable, by decide, by decide, by decide, by decide⟩

/-- C1, amended: in every registry state reached by successful registrations and
unregistrations, when the address `p` lies in the byte range of exactly one registered
Scope `S` and no registered range ends above `p` and before the end of `S`,
`Scope::containing(p)` returns `S`. -/
theorem containing_unique_range (cmp : SliceEq) (r : Option memoryMap) (p : Nat)
    (S : ScopeRef) (hr : Reachable cmp r) (hS : (S.data.end_, S) ∈ entries r)
    (hp : S.data.contains p = true)
    (huniq : ∀ e ∈ entries r, e.2.data.contains p = true → e.2 = S)
    (hno : ∀ e ∈ entries r, p < e.2.data.end_ → S.data.end_ ≤ e.2.data.end_) :
    containing r p = some S := by
  have hinv := hr.inv
  have hpS := (contains_nat _ _).1 hp
  rw [containing_eq]
  cases hf : (entries r).find? (fun e => decide (p < e.1)) with
  | none =>
    have := List.find?_eq_none.1 hf _ hS
    simp at this
    omega
  | some e =>
    have hem : e ∈ entries r := List.mem_of_find?_eq_some hf
    have hpe : p < e.1 := by simpa using List.find?_some hf
    have hke := hinv.key_eq e hem
    have h1 : e.1 ≤ S.data.end_ := find_upper_min _ hinv.sorted p e hf _ hS hpS.2
    have h2 : S.data.end_ ≤ e.2.data.end_ := hno e hem (by omega)
    have hcfg : sameConfig cmp e.2 S = true := hinv.same e hem _ hS (by simp only; omega)
    have hdata : e.2.data = S.data := data_eq_of_sameConfig cmp hcfg (by omega)
    have heS : e.2 = S := huniq e hem (by rw [hdata]; exact hp)
    have hbuf : ¬ p < e.2.data.buf := by
      rw [hdata]
      omega
    show (if p < e.2.data.buf then none else some e.2) = some S
    rw [if_neg hbuf, heS]

/-- The amended C1 at a concrete state: with `[100, 200)` and `[120, 150)` registered,
the address 160 lies only in the first range and is found there. -/
theorem containing_unique_range_witness :
    containing exNested 160 = some (exScope 1 ⟨100, 100⟩).toScopeRef :=
  containing_unique_range rangeEq exNested 160 (exScope 1 ⟨100, 100⟩).toScopeRef
    exNested_reachable (by decide) (by decide) (by decide) (by decide)

/-! ## C2 -/

/-- C2, as stated, fails: with one Scope over `[100, 200)` registered, the smallest end
address that is at least 200 is its end, and 200 is not below its start, yet
`Scope::containing(200)` returns null: the address must be below the end address. -/
theorem containing_smallest_end_counterexample :
    Reachable rangeEq exSingle ∧
    entries exSingle = [(exScope 1 ⟨100, 100⟩).entry] ∧
    200 ≤ (exScope 1 ⟨100, 100⟩).data.end_ ∧
    (exScope 1 ⟨100, 100⟩).data.buf ≤ 200 ∧
    containing exSingle 200 = none :=
  ⟨exSingle_reachable, by decide, by decide, by decide, by decide⟩

/-- C2, amended: in every reachable registry state and for every address `p`, either no
registered Scope ends above `p` and `Scope::containing(p)` returns null, or the lookup
is decided by the first entry `e`, in registry order, whose end address is above `p`:
that end address is the smallest one above `p`, and `Scope::containing(p)` returns
the Scope of `e` when `p` is not below its start and null when it is. -/
theorem containing_smallest_end (cmp : SliceEq) (r : Option memoryMap) (p : Nat)
    (hr : Reachable cmp r) :
    ((∀ e ∈ entries r, e.2.data.end_ ≤ p) ∧ containing r p = none) ∨
    (∃ e l₁ l₂, entries r = l₁ ++ e :: l₂ ∧ (∀ x ∈ l₁, x.2.data.end_ ≤ p) ∧
      p < e.2.data.end_ ∧
      (∀ x ∈ entries r, p < x.2.data.end_ → e.2.data.end_ ≤ x.2.data.end_) ∧
      containing r p = if p < e.2.data.buf then none else some e.2) := by
  have hinv := hr.inv
  rw [containing_eq]
  cases hf : (entries r).find? (fun e => decide (p < e.1)) with
  | none =>
    refine Or.inl ⟨fun e he => ?_, rfl⟩
    have := List.find?_eq_none.1 hf e he
    have hk := hinv.key_eq e he
    simp at this
    omega
  | some e =>
    obtain ⟨hpe, l₁, l₂, hm, hl⟩ := List.find?_eq_some.1 hf
    have hem : e ∈ entries r := List.mem_of_find?_eq_some hf
    have hke := hinv.key_eq e hem
    have hmin := find_upper_min _ hinv.sorted p e hf
    refine Or.inr ⟨e, l₁, l₂, hm, fun x hx => ?_, ?_, fun x hx hpx => ?_, rfl⟩
    · have hxm : x ∈ entries r := by
        rw [hm]
        exact List.mem_append_left _ hx
      have := hl x hx
      have hk := hinv.key_eq x hxm
      simp at this
      omega
    · simp at hpe
      omega
    · have hk := hinv.key_eq x hx
      have := hmin x hx (by omega)
      omega

/-- The amended C2 at a concrete state, the registry with `[100, 200)` and the nested
`[120, 150)`. -/
theorem containing_smallest_end_witness :
    ((∀ e ∈ entries exNested, e.2.data.end_ ≤ 130) ∧ containing exNested 130 = none) ∨
    (∃ e l₁ l₂, entries exNested = l₁ ++ e :: l₂ ∧ (∀ x ∈ l₁, x.2.data.end_ ≤ 130) ∧
      130 < e.2.data.end_ ∧
      (∀ x ∈ entries exNested, 130 < x.2.data.end_ → e.2.data.end_ ≤ x.2.data.end_) ∧
      containing exNested 130 = if 130 < e.2.data.buf then none else some e.2) :=
  containing_smallest_end rangeEq exNested 130 exNested_reachable

/-! ## C3 -/

theorem exChain_laminar : Laminar (entries exChain) := by decide

theorem exNested_laminar : Laminar (entries exNested) := by decide

/-- C3, as stated, fails: with Scopes over `[100, 300)`, `[110, 200)` and `[150, 180)`
registered, each nested in the one before, the address 120 lies in the first two
ranges, and `Scope::containing(120)` returns null instead of the Scope of the narrowest
range `[110, 200)` containing it. -/
theorem containing_narrowest_counterexample :
    Reachable rangeEq exChain ∧ Laminar (entries exChain) ∧
    (exScope 1 ⟨100, 200⟩).entry ∈ entries exChain ∧
    (exScope 2 ⟨110, 90⟩).entry ∈ entries exChain ∧
    (exScope 1 ⟨100, 200⟩).data.contains 120 = true ∧
    (exScope 2 ⟨110, 90⟩).data.contains 120 = true ∧
    containing exChain 120 = none :=
  ⟨exChain_reachable, exChain_laminar, by decide, by decide, by decide, by decide, by decide⟩

/-- C3, amended: in every reachable registry state whose registered ranges are pairwise
disjoint or nested, for every address `p` that lies in more than one registered range,
`Scope::containing(p)` returns a Scope whose range is the narrowest registered range
containing `p`, provided every registered range that starts above `p` ends no earlier
than some registered range containing `p` (no range is registered above `p` inside the
narrowest range containing `p`). -/
theorem containing_narrowest (cmp : SliceEq) (r : Option memoryMap) (p : Nat)
    (hr : Reachable cmp r) (hlam : Laminar (entries r))
    (hmany : ∃ a ∈ entries r, ∃ b ∈ entries r, a ≠ b ∧
      a.2.data.contains p = true ∧ b.2.data.contains p = true)
    (hsub : ∀ t ∈ entries r, p < t.2.data.buf →
      ∃ n ∈ entries r, n.2.data.contains p = true ∧ n.2.data.end_ ≤ t.2.data.end_) :
    ∃ S, containing r p = some S ∧ S.data.contains p = true ∧
      ∀ t ∈ entries r, t.2.data.contains p = true → within S t.2 := by
  have hinv := hr.inv
  obtain ⟨a, ha, _, _, _, hpa, _⟩ := hmany
  have hpa' := (contains_nat _ _).1 hpa
  have hka := hinv.key_eq a ha
  rw [containing_eq]
  cases hf : (entries r).find? (fun e => decide (p < e.1)) with
  | none =>
    have := List.find?_eq_none.1 hf a ha
    simp at this
    omega
  | some e =>
    have hem : e ∈ entries r := List.mem_of_find?_eq_some hf
    have hpe : p < e.1 := by simpa using List.find?_some hf
    have hke := hinv.key_eq e hem
    have hmin := find_upper_min _ hinv.sorted p e hf
    have hbuf : ¬ p < e.2.data.buf := by
      intro hlt
      obtain ⟨n, hn, hpn, hne⟩ := hsub e hem hlt
      have hpn' := (contains_nat _ _).1 hpn
      have hkn := hinv.key_eq n hn
      have h1 := hmin n hn (by omega)
      have hcfg : sameConfig cmp e.2 n.2 = true := hinv.same e hem n hn (by omega)
      have hdata : e.2.data = n.2.data := data_eq_of_sameConfig cmp hcfg (by omega)
      rw [hdata] at hlt
      omega
    have hce : e.2.data.contains p = true := (contains_nat _ _).2 ⟨by omega, by omega⟩
    refine ⟨e.2, ?_, hce, fun t ht hpt => ?_⟩
    · show (if p < e.2.data.buf then none else some e.2) = some e.2
      rw [if_neg hbuf]
    · have hpt' := (contains_nat _ _).1 hpt
      have hkt := hinv.key_eq t ht
      have h1 := hmin t ht (by omega)
      rcases hlam e hem t ht with hd | hw | hw
      · unfold disjoint at hd
        omega
      · exact hw
      · unfold within at hw
        have hcfg : sameConfig cmp e.2 t.2 = true := hinv.same e hem t ht (by omega)
        have hdata : e.2.data = t.2.data := data_eq_of_sameConfig cmp hcfg (by omega)
        unfold within
        rw [hdata]
        omega

/-- The amended C3 at a concrete state: with `[100, 200)` and the nested `[120, 150)`
registered, the address 130 lies in both ranges and the lookup returns a Scope of the
narrowest range containing it. -/
theorem containing_narrowest_witness :
    ∃ S, containing exNested 130 = some S ∧ S.data.contains 130 = true ∧
      ∀ t ∈ entries exNested, t.2.data.contains 130 = true → within S t.2 :=
  containing_narrowest rangeEq exNested 130 exNested_reachable exNested_laminar
    (by decide) (by decide)

/-! ## C4 -/

theorem conflict_iff (cmp : SliceEq) (m : memoryMap) (hinv : Inv cmp m) (s : Scope) :
    conflict cmp m s = true ↔
      ∃ e ∈ m, e.2.data.end_ = s.data.end_ ∧ sameConfig cmp e.2 s.toScopeRef = false := by
  constructor
  · intro hc
    unfold conflict at hc
    cases hl : (lowerPart m s.data.end_).getLast? with
    | none => simp [hl] at hc
    | some x =>
      rw [hl] at hc
      simp only [Bool.and_eq_true, beq_iff_eq, Bool.not_eq_true'] at hc
      have hxm : x ∈ m :=
        (List.takeWhile_sublist _).subset (List.mem_of_getLast?_eq_some hl)
      exact ⟨x, hxm, by rw [← hinv.key_eq x hxm]; exact hc.1, hc.2⟩
  · rintro ⟨e, hem, hend, hcfg⟩
    have hk : e.1 = s.data.end_ := by rw [hinv.key_eq e hem]; exact hend
    obtain ⟨x, hx, hxm, hxk⟩ := getLast_lower_of_mem m _ hinv.sorted e hem hk
    have hex : sameConfig cmp e.2 x.2 = true := hinv.same e hem x hxm (by omega)
    have hxs : sameConfig cmp x.2 s.toScopeRef = false := by
      cases h : sameConfig cmp x.2 s.toScopeRef with
      | false => rfl
      | true =>
        rw [sameConfig_trans cmp hex h] at hcfg
        exact absurd hcfg (by decide)
    unfold conflict
    rw [hx]
    simp [hxk, hxs]

/-- C4, as stated, fails: with a Scope over `[100, 200)` registered, registering a Scope
over `[150, 250)`, which overlaps it without either range containing the other,
returns normally and the new Scope is in the registry. -/
theorem registr_overlap_counterexample :
    Reachable rangeEq exSingle ∧
    (exScope 1 ⟨100, 100⟩).entry ∈ entries exSingle ∧
    partialOverlap (exScope 2 ⟨150, 100⟩).toScopeRef (exScope 1 ⟨100, 100⟩).toScopeRef ∧
    registr rangeEq exSingle (exScope 2 ⟨150, 100⟩) =
      .ok (some [(200, (exScope 1 ⟨100, 100⟩).toScopeRef),
                 (250, (exScope 2 ⟨150, 100⟩).toScopeRef)],
           { exScope 2 ⟨150, 100⟩ with registered := true }) :=
  ⟨exSingle_reachable, by decide, by decide, rfl⟩

/-- C4, amended: in every reachable registry state, registering a Scope fails with
InternalError exactly when its data end at the same address as the data of an already
registered Scope whose data range, extern destination or shared keys differ from its
own as `registr` compares them (the slices with `slice::operator==`, the shared keys
as pointers); every other registration, an overlap without containment included,
returns normally with the Scope inserted in the registry at its end address. -/
theorem registr_fails_iff (cmp : SliceEq) (r : Option memoryMap) (s : Scope)
    (hr : Reachable cmp r) :
    (registr cmp r s = .error ErrorCode.InternalError ↔
      ∃ e ∈ entries r, e.2.data.end_ = s.data.end_ ∧
        sameConfig cmp e.2 s.toScopeRef = false) ∧
    ((¬ ∃ e ∈ entries r, e.2.data.end_ = s.data.end_ ∧
        sameConfig cmp e.2 s.toScopeRef = false) →
      ∃ r', registr cmp r s = .ok (r', { s with registered := true }) ∧
        s.entry ∈ entries r') := by
  have hc := conflict_iff cmp (entries r) hr.inv s
  rw [registr_eq]
  constructor
  · rw [← hc]
    by_cases h : conflict cmp (entries r) s = true <;> simp [h]
  · intro hno
    rw [← hc] at hno
    simp only [hno, if_false]
    exact ⟨_, rfl, by simp [entries]⟩

/-- The amended C4 at a concrete state: with `[100, 200)` registered, the registration
of the overlapping `[150, 250)`. -/
theorem registr_fails_iff_witness :
    (registr rangeEq exSingle (exScope 2 ⟨150, 100⟩) = .error ErrorCode.InternalError ↔
      ∃ e ∈ entries exSingle, e.2.data.end_ = (exScope 2 ⟨150, 100⟩).data.end_ ∧
        sameConfig rangeEq e.2 (exScope 2 ⟨150, 100⟩).toScopeRef = false) ∧
    ((¬ ∃ e ∈ entries exSingle, e.2.data.end_ = (exScope 2 ⟨150, 100⟩).data.end_ ∧
        sameConfig rangeEq e.2 (exScope 2 ⟨150, 100⟩).toScopeRef = false) →
      ∃ r', registr rangeEq exSingle (exScope 2 ⟨150, 100⟩) =
          .ok (r', { exScope 2 ⟨150, 100⟩ with registered := true }) ∧
        (exScope 2 ⟨150, 100⟩).entry ∈ entries r') :=
  registr_fails_iff rangeEq exSingle (exScope 2 ⟨150, 100⟩) exSingle_reachable

/-! ## C5 -/

/-- Inserting an entry behind an entry of the same key does not change what
`upper_bound` finds. -/
theorem find_insert_behind (m : memoryMap) (hs : m.Pairwise (fun a b => a.1 ≤ b.1))
    (n e : Nat × ScopeRef) (he : e ∈ m) (hk : e.1 = n.1) (p : Nat) :
    (lowerPart m n.1 ++ n :: upperPart m n.1).find? (fun x => decide (p < x.1)) =
      m.find? (fun x => decide (p < x.1)) := by
  conv_rhs => rw [← lower_append_upper m n.1]
  rw [List.find?_append, List.find?_append]
  by_cases hp : p < n.1
  · have hel : e ∈ lowerPart m n.1 := mem_takeWhile_of_le m n.1 hs e he (by omega)
    cases hf : (lowerPart m n.1).find? (fun x => decide (p < x.1)) with
    | none =>
      have := List.find?_eq_none.1 hf e hel
      simp at this
      omega
    | some x => simp
  · rw [List.find?_cons_of_neg _ (by simpa using hp)]

theorem exExternSingle_reachable : Reachable (contentEq exZeroMemory) exExternSingle :=
  Reachable.afterRegistr none (exExternScope 1 ⟨300, 10⟩) exExternSingle
    { exExternScope 1 ⟨300, 10⟩ with registered := true } Reachable.init (by decide) rfl

theorem exExternPair_reachable : Reachable (contentEq exZeroMemory) exExternPair :=
  Reachable.afterRegistr exExternSingle (exExternScope 5 ⟨400, 10⟩) exExternPair
    { exExternScope 5 ⟨400, 10⟩ with registered := true } exExternSingle_reachable
    (by decide) rfl

/-- C5, as stated, fails: `slice::operator==` compares the bytes of two slices.  In a
memory of zero bytes, with a Scope over `[100, 200)` with extern destination
`[300, 310)` registered, registering a second Scope with the same data range and
shared keys and the different extern destination `[400, 410)` returns normally. -/
theorem registr_duplicate_counterexample :
    Reachable (contentEq exZeroMemory) exExternSingle ∧
    (exExternScope 1 ⟨300, 10⟩).entry ∈ entries exExternSingle ∧
    (exExternScope 5 ⟨400, 10⟩).data = (exExternScope 1 ⟨300, 10⟩).data ∧
    (exExternScope 5 ⟨400, 10⟩).sk = (exExternScope 1 ⟨300, 10⟩).sk ∧
    (exExternScope 5 ⟨400, 10⟩).externDestination ≠
      (exExternScope 1 ⟨300, 10⟩).externDestination ∧
    registr (contentEq exZeroMemory) exExternSingle (exExternScope 5 ⟨400, 10⟩) =
      .ok (exExternPair, { exExternScope 5 ⟨400, 10⟩ with registered := true }) :=
  ⟨exExternSingle_reachable, by decide, rfl, rfl, by decide, rfl⟩

/-- C5, amended: in every reachable registry state in which a Scope with data range `R`,
shared keys `K` and extern destination `E` is registered, registering a second Scope
with the same `R` and `K` and an extern destination that `slice::operator==` finds
equal to `E` returns normally and `Scope::containing(p)` returns the same Scope as
before for every address `p` (so the data range, shared keys and extern destination
it reports are unchanged), while registering a second Scope with the same `R` and a
different `K`, or an extern destination that `slice::operator==` finds different from
`E`, raises InternalError. -/
theorem registr_duplicate (cmp : SliceEq) (r : Option memoryMap) (e : ScopeRef) (s : Scope)
    (hr : Reachable cmp r) (he : (e.data.end_, e) ∈ entries r) (hdata : s.data = e.data) :
    ((s.sk = e.sk ∧ cmp.eq e.externDestination s.externDestination = true) →
      ∃ r', registr cmp r s = .ok (r', { s with registered := true }) ∧
        ∀ p, containing r' p = containing r p) ∧
    ((s.sk ≠ e.sk ∨ cmp.eq e.externDestination s.externDestination = false) →
      registr cmp r s = .error ErrorCode.InternalError) := by
  have hinv := hr.inv
  have hc := conflict_iff cmp (entries r) hinv s
  have hd : cmp.eq e.data s.data = true := by rw [hdata]; exact cmp.refl _
  rw [registr_eq]
  constructor
  · rintro ⟨hsk, hdest⟩
    have hes : sameConfig cmp e s.toScopeRef = true := by
      simp only [sameConfig, Bool.and_eq_true, beq_iff_eq]
      exact ⟨⟨hd, hdest⟩, hsk.symm⟩
    have hno : ¬ conflict cmp (entries r) s = true := by
      rw [hc]
      rintro ⟨x, hx, hend, hcfg⟩
      have hxe : sameConfig cmp x.2 e = true :=
        hinv.same x hx _ he (by
          rw [hinv.key_eq x hx, hend, hdata])
      rw [sameConfig_trans cmp hxe hes] at hcfg
      exact absurd hcfg (by decide)
    simp only [hno, if_false]
    refine ⟨_, rfl, fun p => ?_⟩
    rw [containing_eq, containing_eq]
    have := find_insert_behind (entries r) hinv.sorted s.entry (e.data.end_, e) he
      (by simp [Scope.entry, hdata]) p
    simp only [Scope.entry] at this
    simp only [entries, Option.getD_some, Scope.entry] at this ⊢
    rw [this]
  · intro hdiff
    have hes : sameConfig cmp e s.toScopeRef = false := by
      simp only [sameConfig, Bool.and_eq_false_iff, beq_eq_false_iff_ne]
      rcases hdiff with h | h
      · exact Or.inr (fun h' => h h'.symm)
      · exact Or.inl (Or.inr h)
    have : conflict cmp (entries r) s = true :=
      hc.2 ⟨_, he, by simp [hdata], hes⟩
    simp [this]

/-- The amended C5 at a concrete state: with a Scope over `[100, 200)` registered, the registration
of a second Scope over `[100, 200)` with the same shared keys and extern destination
returns normally and changes no lookup, and the registration of one with other shared
keys raises InternalError. -/
theorem registr_duplicate_witness :
    (∃ r', registr rangeEq exSingle (exScope 5 ⟨100, 100⟩) =
        .ok (r', { exScope 5 ⟨100, 100⟩ with registered := true }) ∧
      ∀ p, containing r' p = containing exSingle p) ∧
    registr rangeEq exSingle { exScope 6 ⟨100, 100⟩ with sk := 7 } =
      .error ErrorCode.InternalError :=
  ⟨(registr_duplicate rangeEq exSingle (exScope 1 ⟨100, 100⟩).toScopeRef
      (exScope 5 ⟨100, 100⟩) exSingle_reachable (by decide) rfl).1 ⟨rfl, rfl⟩,
   (registr_duplicate rangeEq exSingle (exScope 1 ⟨100, 100⟩).toScopeRef
      { exScope 6 ⟨100, 100⟩ with sk := 7 } exSingle_reachable (by decide) rfl).2
      (Or.inl (by decide))⟩

/-! ## C6 -/

/-- C6, as stated, fails: for a Scope with data `[16, 116)` and extern destination
`[1000, 1050)`, the address `2 ^ 64 - 8` is above the start of the data, and
`resolveExternPointerTo` returns the address 1026 of the extern destination for it,
because the pointer sum wraps around. -/
theorem resolveExternPointerTo_counterexample :
    ((16 : Nat) : Int) ≤ 2 ^ 64 - 8 ∧ (2 ^ 64 - 8 : Int) < 2 ^ 64 ∧
    resolveExternPointerTo
      { addr := 1, sk := 0, externDestination := ⟨1000, 50⟩, data := ⟨16, 100⟩ }
      (2 ^ 64 - 8) = 1026 := by
  refine ⟨by norm_num, by norm_num, ?_⟩
  norm_num [resolveExternPointerTo, slice.contains, slice.end_]

/-- C6, amended: for a Scope with data starting at `D` and extern destination
`[Es, Ee)` that is no longer than `D` (so that the range `[D - (Ee - Es), D)` before
the data lies in the address space), with `D` and `Ee` within the 64-bit address
space, and every address `dst`: the re-based address lies in `[Es, Ee)` exactly when
`D - (Ee - Es) ≤ dst < D`; in that case `resolveExternPointerTo(dst)` returns
`dst + (Ee - D)`, and in every other case it returns null, in particular for every
`dst` at or above `D` and for every `dst` when the Scope has no extern destination;
the byte `k` below the start of the data resolves to the byte `k` below the end of the
extern destination. -/
theorem resolveExternPointerTo_spec (s : ScopeRef) (dst : Int)
    (hdst : 0 ≤ dst ∧ dst < 2 ^ 64) (hD : (s.data.buf : Int) < 2 ^ 64)
    (hE : (s.externDestination.end_ : Int) ≤ 2 ^ 64)
    (hfit : s.externDestination.size ≤ s.data.buf) :
    (s.externDestination.contains
        ((dst + ((s.externDestination.end_ : Int) - (s.data.buf : Int))) % 2 ^ 64) = true ↔
      (s.data.buf : Int) - ((s.externDestination.end_ : Int) - (s.externDestination.buf : Int))
        ≤ dst ∧ dst < (s.data.buf : Int)) ∧
    (((s.data.buf : Int) - ((s.externDestination.end_ : Int) - (s.externDestination.buf : Int))
        ≤ dst ∧ dst < (s.data.buf : Int)) →
      resolveExternPointerTo s dst =
        dst + ((s.externDestination.end_ : Int) - (s.data.buf : Int))) ∧
    (¬ ((s.data.buf : Int) - ((s.externDestination.end_ : Int) - (s.externDestination.buf : Int))
        ≤ dst ∧ dst < (s.data.buf : Int)) →
      resolveExternPointerTo s dst = 0) ∧
    ((s.data.buf : Int) ≤ dst → resolveExternPointerTo s dst = 0) ∧
    (s.externDestination = nullslice → resolveExternPointerTo s dst = 0) ∧
    (∀ k : Int, 0 < k → k ≤ (s.externDestination.size : Int) →
      resolveExternPointerTo s ((s.data.buf : Int) - k) =
        (s.externDestination.end_ : Int) - k) := by
  have hW : (2 : Int) ^ 64 = 18446744073709551616 := by norm_num
  rw [hW] at hdst hD hE
  have hend : (s.externDestination.end_ : Int) =
      (s.externDestination.buf : Int) + (s.externDestination.size : Int) := by
    simp [slice.end_]
  have hfit' : (s.externDestination.size : Int) ≤ (s.data.buf : Int) := by
    exact_mod_cast hfit
  have hiffd : ∀ d : Int, 0 ≤ d → d < 18446744073709551616 →
      (s.externDestination.contains
        ((d + ((s.externDestination.end_ : Int) - (s.data.buf : Int))) % 2 ^ 64) = true ↔
      (s.data.buf : Int) - ((s.externDestination.end_ : Int) - (s.externDestination.buf : Int))
        ≤ d ∧ d < (s.data.buf : Int)) := by
    intro d hd0 hd1
    rw [hW]
    simp only [slice.contains, Bool.and_eq_true, decide_eq_true_eq]
    constructor <;> intro h <;> constructor <;> omega
  have hval : ∀ d : Int,
      ((s.data.buf : Int) - ((s.externDestination.end_ : Int) - (s.externDestination.buf : Int))
        ≤ d ∧ d < (s.data.buf : Int)) →
      (d + ((s.externDestination.end_ : Int) - (s.data.buf : Int))) % 2 ^ 64 =
        d + ((s.externDestination.end_ : Int) - (s.data.buf : Int)) := by
    intro d h
    rw [hW]
    omega
  have hin : ∀ d : Int, 0 ≤ d → d < 18446744073709551616 →
      ((s.data.buf : Int) - ((s.externDestination.end_ : Int) - (s.externDestination.buf : Int))
        ≤ d ∧ d < (s.data.buf : Int)) →
      resolveExternPointerTo s d =
        d + ((s.externDestination.end_ : Int) - (s.data.buf : Int)) := by
    intro d hd0 hd1 h
    have hc := (hiffd d hd0 hd1).2 h
    simp only [resolveExternPointerTo, hc, Bool.not_true, Bool.false_eq_true, if_false]
    exact hval d h
  have hout : ∀ d : Int, 0 ≤ d → d < 18446744073709551616 →
      ¬ ((s.data.buf : Int) - ((s.externDestination.end_ : Int) - (s.externDestination.buf : Int))
        ≤ d ∧ d < (s.data.buf : Int)) →
      resolveExternPointerTo s d = 0 := by
    intro d hd0 hd1 h
    have hc : s.externDestination.contains
        ((d + ((s.externDestination.end_ : Int) - (s.data.buf : Int))) % 2 ^ 64) = false := by
      cases hb : s.externDestination.contains
        ((d + ((s.externDestination.end_ : Int) - (s.data.buf : Int))) % 2 ^ 64) with
      | false => rfl
      | true => exact absurd ((hiffd d hd0 hd1).1 hb) h
    simp only [resolveExternPointerTo, hc, Bool.not_false, if_true]
  refine ⟨hiffd dst hdst.1 hdst.2, hin dst hdst.1 hdst.2, hout dst hdst.1 hdst.2,
    fun h => hout dst hdst.1 hdst.2 (fun h' => ?_),
    fun h => hout dst hdst.1 hdst.2 (fun h' => ?_), fun k hk hks => ?_⟩
  · omega
  · rw [h] at h'
    simp [nullslice, slice.end_] at h'
    omega
  · rw [hin _ (by omega) (by omega) ⟨by omega, by omega⟩]
    omega

/-- The amended C6 at a concrete Scope: data `[1000, 1100)`, extern destination
`[500, 550)`; the address 990, the byte 10 below the data, resolves to 540, the byte
10 below the end of the extern destination. -/
theorem resolveExternPointerTo_spec_witness :
    resolveExternPointerTo
      { addr := 1, sk := 0, externDestination := ⟨500, 50⟩, data := ⟨1000, 100⟩ } 990 = 540 :=
  (resolveExternPointerTo_spec
    { addr := 1, sk := 0, externDestination := ⟨500, 50⟩, data := ⟨1000, 100⟩ } 990
    ⟨by decide, by decide⟩ (by decide) (by decide) (by decide)).2.1 ⟨by decide, by decide⟩

/-! ## C7 -/

theorem containing_mem (r : Option memoryMap) (p : Nat) (S : ScopeRef)
    (h : containing r p = some S) : ∃ e ∈ entries r, e.2 = S := by
  rw [containing_eq] at h
  cases hf : (entries r).find? (fun e => decide (p < e.1)) with
  | none => simp [hf] at h
  | some e =>
    rw [hf] at h
    by_cases hb : p < e.2.data.buf
    · simp [hb] at h
    · simp only [hb, if_false, Option.some.injEq] at h
      exact ⟨e, List.mem_of_find?_eq_some hf, h⟩

/-- Erasing the entry that `registr` inserted for a new Scope gives back the entries
from before the insertion. -/
theorem erase_inserted (m : memoryMap) (s : Scope) (hfresh : ∀ e ∈ m, e.2.addr ≠ s.addr) :
    (lowerPart m s.data.end_ ++ s.entry :: upperPart m s.data.end_).erase s.entry = m := by
  have hnot : s.entry ∉ lowerPart m s.data.end_ := by
    intro h
    exact hfresh _ ((List.takeWhile_sublist _).subset h) rfl
  rw [List.erase_append_right _ hnot, List.erase_cons_head, lower_append_upper]

theorem Doc_init_untrusted (fromTrustedData fromData : slice → Nat)
    (m : Option memoryMap) (s : Scope) (hd : s.data.toBool = true) :
    Doc.init fromTrustedData fromData m { toScope := s, root := 0 } Trust.kUntrusted =
      if fromData s.data = 0 then
        ((unregister m s).1,
          { toScope := { (unregister m s).2 with isDoc := true }, root := 0 })
      else
        (m, { toScope := { s with isDoc := true }, root := fromData s.data }) := by
  unfold Doc.init
  by_cases h0 : fromData s.data = 0
  · simp [hd, h0]
  · simp [hd, h0]

theorem Doc_new_untrusted (cmp : SliceEq) (fromTrustedData fromData : slice → Nat)
    (r : Option memoryMap) (this : Nat) (data : slice) (sk : Nat) (destination : slice)
    (hdata : data.toBool = true) (hfresh : ∀ e ∈ entries r, e.2.addr ≠ this) :
    Doc.new cmp fromTrustedData fromData r this data Trust.kUntrusted sk destination =
      if conflict cmp (entries r) (Scope.initial this data sk destination) then
        .error ErrorCode.InternalError
      else if fromData data = 0 then
        .ok (some (entries r),
          { toScope := { Scope.initial this data sk destination with isDoc := true },
            root := 0 })
      else
        .ok (some (lowerPart (entries r) data.end_ ++
              (Scope.initial this data sk destination).entry ::
              upperPart (entries r) data.end_),
          { toScope := { Scope.initial this data sk destination with
              registered := true, isDoc := true },
            root := fromData data }) := by
  unfold Doc.new Scope.new
  simp only [hdata, if_true]
  rw [registr_eq]
  by_cases hc : conflict cmp (entries r) (Scope.initial this data sk destination) = true
  · simp [hc]
  · rw [if_neg hc, if_neg hc]
    simp only []
    rw [Doc_init_untrusted fromTrustedData fromData _
      { Scope.initial this data sk destination with registered := true } hdata]
    by_cases h0 : fromData data = 0
    · have herase := erase_inserted (entries r) (Scope.initial this data sk destination) hfresh
      have h0' : fromData (Scope.initial this data sk destination).data = 0 := h0
      simp only [h0, h0', if_true, unregister, Option.map_some']
      have he : ({ Scope.initial this data sk destination with registered := true } : Scope).entry
          = (Scope.initial this data sk destination).entry := rfl
      rw [he, herase]
      rfl
    · have h0' : ¬ fromData (Scope.initial this data sk destination).data = 0 := h0
      simp only [h0, h0', if_false]
      rfl

theorem Doc_newSub_untrusted (fromTrustedData fromData : slice → Nat)
    (r : Option memoryMap) (this : Nat) (parentScope : Scope) (subData : slice)
    (hdata : subData.toBool = true) :
    Doc.newSub fromTrustedData fromData r this parentScope subData Trust.kUntrusted =
      if subData.toBool && !parentScope.data.containsSlice subData then
        .error ErrorCode.AssertionFailed
      else
        .ok (r,
          { toScope := { Scope.initial this subData parentScope.sk
              parentScope.externDestination with isDoc := true },
            root := fromData subData }) := by
  unfold Doc.newSub Scope.newSub
  by_cases ha : (subData.toBool && !parentScope.data.containsSlice subData) = true
  · simp [ha]
  · rw [if_neg ha, if_neg ha]
    simp only []
    rw [Doc_init_untrusted fromTrustedData fromData _
      (Scope.initial this subData parentScope.sk parentScope.externDestination) hdata]
    have hu : ∀ m, unregister m
        (Scope.initial this subData parentScope.sk parentScope.externDestination) =
        (m, Scope.initial this subData parentScope.sk parentScope.externDestination) := by
      intro m
      rfl
    by_cases h0 : fromData subData = 0
    · have h0' : fromData (Scope.initial this subData parentScope.sk
          parentScope.externDestination).data = 0 := h0
      simp only [h0', if_true, hu]
      rw [h0]
    · have h0' : ¬ fromData (Scope.initial this subData parentScope.sk
          parentScope.externDestination).data = 0 := h0
      simp only [h0', if_false]
      rfl

/-- C7: a Doc constructed as untrusted over a non-null byte range, by either
constructor, at an address that is not that of a registered Scope.  The constructor
over data of its own ends in the fatal registry error exactly when the check of
`registr` fails (`conflict`), and returns otherwise; the constructor over a sub-range
of a parent Scope ends in the failed assertion exactly when the parent's data do not
contain the range, and returns otherwise.  When the constructor returns, `root()` is
the result of `Value::fromData` on the range; when that result is null the Doc is not
registered, the registry has the entries it had before the construction, and no Scope
that `Scope::containing` returns is that Doc; when it is not null, the Doc built on
data of its own is registered. -/
theorem Doc_untrusted_root (cmp : SliceEq) (fromTrustedData fromData : slice → Nat)
    (r : Option memoryMap) (this : Nat) (data : slice) (sk : Nat) (destination : slice)
    (parentScope : Scope) (hdata : data.toBool = true)
    (hfresh : ∀ e ∈ entries r, e.2.addr ≠ this) :
    (conflict cmp (entries r) (Scope.initial this data sk destination) = true →
      Doc.new cmp fromTrustedData fromData r this data Trust.kUntrusted sk destination =
        .error ErrorCode.InternalError) ∧
    (conflict cmp (entries r) (Scope.initial this data sk destination) = false →
      ∃ r' d, Doc.new cmp fromTrustedData fromData r this data Trust.kUntrusted sk
          destination = .ok (r', d) ∧
        d.addr = this ∧ d.data = data ∧ d.root = fromData data ∧
        (fromData data = 0 → d.root = 0 ∧ d.registered = false ∧
          entries r' = entries r ∧ ∀ p S, containing r' p = some S → S.addr ≠ d.addr) ∧
        (fromData data ≠ 0 → d.registered = true ∧ d.toScope.entry ∈ entries r')) ∧
    (parentScope.data.containsSlice data = false →
      Doc.newSub fromTrustedData fromData r this parentScope data Trust.kUntrusted =
        .error ErrorCode.AssertionFailed) ∧
    (parentScope.data.containsSlice data = true →
      ∃ r' d, Doc.newSub fromTrustedData fromData r this parentScope data
          Trust.kUntrusted = .ok (r', d) ∧
        d.addr = this ∧ d.data = data ∧ d.root = fromData data ∧
        (fromData data = 0 → d.root = 0 ∧ d.registered = false ∧
          entries r' = entries r ∧ ∀ p S, containing r' p = some S → S.addr ≠ d.addr)) := by
  have hnever : ∀ (r' : Option memoryMap), entries r' = entries r →
      ∀ p S, containing r' p = some S → S.addr ≠ this := by
    intro r' hr' p S hc
    obtain ⟨e, he, heS⟩ := containing_mem r' p S hc
    rw [hr'] at he
    rw [← heS]
    exact hfresh e he
  refine ⟨fun hc => ?_, fun hc => ?_, fun ha => ?_, fun ha => ?_⟩
  · rw [Doc_new_untrusted cmp fromTrustedData fromData r this data sk destination hdata hfresh]
    rw [if_pos hc]
  · rw [Doc_new_untrusted cmp fromTrustedData fromData r this data sk destination hdata hfresh]
    have hc' : ¬ conflict cmp (entries r) (Scope.initial this data sk destination) = true := by
      rw [hc]
      decide
    by_cases h0 : fromData data = 0
    · rw [if_neg hc', if_pos h0]
      exact ⟨_, _, rfl, rfl, rfl, h0.symm,
        fun _ => ⟨rfl, rfl, rfl, hnever _ rfl⟩, fun h => absurd h0 h⟩
    · rw [if_neg hc', if_neg h0]
      refine ⟨_, _, rfl, rfl, rfl, rfl, fun h => absurd h h0, fun _ => ⟨rfl, ?_⟩⟩
      simp [entries, Scope.entry]
  · rw [Doc_newSub_untrusted fromTrustedData fromData r this parentScope data hdata]
    have hcond : (data.toBool && !parentScope.data.containsSlice data) = true := by
      simp [hdata, ha]
    rw [if_pos hcond]
  · rw [Doc_newSub_untrusted fromTrustedData fromData r this parentScope data hdata]
    have hcond : ¬ (data.toBool && !parentScope.data.containsSlice data) = true := by
      simp [ha]
    rw [if_neg hcond]
    exact ⟨_, _, rfl, rfl, rfl, rfl, fun h => ⟨h, rfl, rfl, hnever r rfl⟩⟩

/-- C7 at a concrete state: with a Scope over `[100, 200)` registered and a decoder that
rejects every input, an untrusted Doc over `[120, 150)` at address 9, by either
constructor, is constructed with a null root and leaves the registry as it was. -/
theorem Doc_untrusted_root_witness :
    (∃ r' d, Doc.new rangeEq (fun _ => 0) (fun _ => 0) exSingle 9 ⟨120, 30⟩
        Trust.kUntrusted 0 nullslice = .ok (r', d) ∧
      d.root = 0 ∧ d.registered = false ∧ entries r' = entries exSingle ∧
      ∀ p S, containing r' p = some S → S.addr ≠ d.addr) ∧
    (∃ r' d, Doc.newSub (fun _ => 0) (fun _ => 0) exSingle 9
        { exScope 1 ⟨100, 100⟩ with registered := true } ⟨120, 30⟩ Trust.kUntrusted =
          .ok (r', d) ∧
      d.root = 0 ∧ d.registered = false ∧ entries r' = entries exSingle ∧
      ∀ p S, containing r' p = some S → S.addr ≠ d.addr) :=
  have h := Doc_untrusted_root rangeEq (fun _ => 0) (fun _ => 0) exSingle 9 ⟨120, 30⟩ 0
    nullslice { exScope 1 ⟨100, 100⟩ with registered := true } rfl (by decide)
  ⟨match h.2.1 rfl with
    | ⟨r', d, hok, _, _, _, hnull, _⟩ => ⟨r', d, hok, hnull rfl⟩,
   match h.2.2.2 (by decide) with
    | ⟨r', d, hok, _, _, _, hnull⟩ => ⟨r', d, hok, hnull rfl⟩⟩

/-! ## C8 -/

/-- C8, as stated, fails: with a Scope over `[100, 200)` registered, constructing a Scope
over its sub-range `[120, 150)` returns with the registry as it was; no registry entry
has the sub-range as its data, and `Scope::containing(130)` returns the Scope of the
parent range. -/
theorem Scope_newSub_counterexample :
    Reachable rangeEq exSingle ∧
    (exScope 1 ⟨100, 100⟩).entry ∈ entries exSingle ∧
    slice.toBool ⟨120, 30⟩ = true ∧
    (exScope 1 ⟨100, 100⟩).data.containsSlice ⟨120, 30⟩ = true ∧
    Scope.newSub exSingle 2 { exScope 1 ⟨100, 100⟩ with registered := true } ⟨120, 30⟩ =
      .ok (exSingle, Scope.initial 2 ⟨120, 30⟩ 0 nullslice) ∧
    (∀ e ∈ entries exSingle, e.2.data ≠ ⟨120, 30⟩) ∧
    containing exSingle 130 = some (exScope 1 ⟨100, 100⟩).toScopeRef :=
  ⟨exSingle_reachable, by decide, by decide, by decide, rfl, by decide, by decide⟩

/-- C8, amended: a Scope constructed over a non-null sub-range of a parent Scope's data
takes the shared keys and the extern destination of the parent and is not registered:
the constructor returns with the registry as it was, so that `Scope::containing`
returns for every address what it returned before the construction. -/
theorem Scope_newSub_unregistered (r : Option memoryMap) (this : Nat) (parentScope : Scope)
    (subData : slice) (hsub : subData.toBool = true)
    (hin : parentScope.data.containsSlice subData = true) :
    ∃ s, Scope.newSub r this parentScope subData = .ok (r, s) ∧
      s.addr = this ∧ s.data = subData ∧ s.sk = parentScope.sk ∧
      s.externDestination = parentScope.externDestination ∧ s.registered = false := by
  refine ⟨Scope.initial this subData parentScope.sk parentScope.externDestination,
    ?_, rfl, rfl, rfl, rfl, rfl⟩
  simp [Scope.newSub, hsub, hin]

/-- The amended C8 at a concrete state: the sub-range `[120, 150)` of a registered parent
Scope over `[100, 200)`. -/
theorem Scope_newSub_unregistered_witness :
    ∃ s, Scope.newSub exSingle 2 { exScope 1 ⟨100, 100⟩ with registered := true } ⟨120, 30⟩ =
        .ok (exSingle, s) ∧
      s.addr = 2 ∧ s.data = ⟨120, 30⟩ ∧ s.sk = 0 ∧
      s.externDestination = nullslice ∧ s.registered = false :=
  Scope_newSub_unregistered exSingle 2 { exScope 1 ⟨100, 100⟩ with registered := true }
    ⟨120, 30⟩ (by decide) (by decide)

/-! ## C9 -/

/-- C9: on an encoder in the failed state, `FLEncoder_ConvertJSON` returns false for
every input and leaves the encoder as it was, error code, error message and the
states of the binary encoder, JSON encoder and JSON converter included, whatever the
collaborators would do: none of them is called. -/
theorem FLEncoder_ConvertJSON_failed {Enc JEnc Conv : Type} (g : Glue Enc JEnc Conv)
    (e : FLEncoderImpl Enc JEnc Conv) (json : Bytes) (h : e.hasError = true) :
    FLEncoder_ConvertJSON g e json = (false, e) := by
  simp [FLEncoder_ConvertJSON, h]

/-- C9 at a concrete encoder: a binary-format encoder that has recorded `kFLJSONError`. -/
theorem FLEncoder_ConvertJSON_failed_witness :
    FLEncoder_ConvertJSON exGlue exFailedEncoder [123, 125] = (false, exFailedEncoder) :=
  FLEncoder_ConvertJSON_failed exGlue exFailedEncoder [123, 125] (by decide)

/-! ## C10 -/

/-- C10, as stated, fails: on a JSON-format encoder in the failed state with the error
code `kFLEncodeError`, `FLEncoder_FinishDoc` returns null and stores `kFLUnsupported`
in `*outError`, not the recorded code. -/
theorem FLEncoder_FinishDoc_counterexample :
    exFailedJSONEncoder.hasError = true ∧
    exFailedJSONEncoder.errorCode = FLError.kFLEncodeError ∧
    (FLEncoder_FinishDoc exGlue exFailedJSONEncoder (some FLError.kFLNoError)).1 = 0 ∧
    (FLEncoder_FinishDoc exGlue exFailedJSONEncoder (some FLError.kFLNoError)).2.1 =
      some FLError.kFLUnsupported :=
  ⟨by decide, by decide, by decide, by decide⟩

/-- C10, amended: on an encoder in the failed state whose recorded error code is `c`,
`FLEncoder_Finish` (binary or JSON format) and `FLEncoder_FinishDoc` on a
binary-format encoder return a null result and store `c` in `*outError` when
`outError` is not null; `FLEncoder_FinishDoc` on a JSON-format encoder returns a null
result and stores `kFLUnsupported`. -/
theorem FLEncoder_Finish_failed {Enc JEnc Conv : Type} (g : Glue Enc JEnc Conv)
    (e : FLEncoderImpl Enc JEnc Conv) (outError : Option FLError) (h : e.hasError = true) :
    (FLEncoder_Finish g e outError).1 = none ∧
    (FLEncoder_Finish g e outError).2.1 = outError.map (fun _ => e.errorCode) ∧
    (FLEncoder_FinishDoc g e outError).1 = 0 ∧
    (e.isFleece = true →
      (FLEncoder_FinishDoc g e outError).2.1 = outError.map (fun _ => e.errorCode)) ∧
    (e.isFleece = false →
      (FLEncoder_FinishDoc g e outError).2.1 =
        outError.map (fun _ => FLError.kFLUnsupported)) := by
  refine ⟨?_, ?_, ?_, ?_, ?_⟩
  · simp [FLEncoder_Finish, h]
  · simp [FLEncoder_Finish, h, finishFailure]
  · cases hf : e.fleeceEncoder <;> simp [FLEncoder_FinishDoc, h, hf]
  · intro hi
    cases hf : e.fleeceEncoder with
    | none => simp [FLEncoderImpl.isFleece, hf] at hi
    | some enc => simp [FLEncoder_FinishDoc, h, hf, finishFailure]
  · intro hi
    cases hf : e.fleeceEncoder with
    | none => simp [FLEncoder_FinishDoc, hf, finishFailure]
    | some enc => simp [FLEncoderImpl.isFleece, hf] at hi

/-- The amended C10 at concrete encoders: a binary-format encoder that has recorded
`kFLJSONError`. -/
theorem FLEncoder_Finish_failed_witness :
    (FLEncoder_Finish exGlue exFailedEncoder (some FLError.kFLNoError)).1 = none ∧
    (FLEncoder_Finish exGlue exFailedEncoder (some FLError.kFLNoError)).2.1 =
      some FLError.kFLJSONError ∧
    (FLEncoder_FinishDoc exGlue exFailedEncoder (some FLError.kFLNoError)).1 = 0 ∧
    (FLEncoder_FinishDoc exGlue exFailedEncoder (some FLError.kFLNoError)).2.1 =
      some FLError.kFLJSONError :=
  have h := FLEncoder_Finish_failed exGlue exFailedEncoder (some FLError.kFLNoError)
    (by decide)
  ⟨h.1, h.2.1, h.2.2.1, h.2.2.2.1 (by decide)⟩

/-! ## C11 -/

/-- C11: on a null handle every listed accessor returns its sentinel, whatever the
implementation would answer: for a null value `FLValue_AsBool`, `IsInteger`,
`IsUnsigned` and `IsDouble` return false, `AsInt` and `AsUnsigned` return 0, `AsFloat`
and `AsDouble` return 0.0, `AsString` and `AsData` return the null slice, `AsArray`
and `AsDict` return null and `AsTimestamp` returns `FLTimestampNone`; for a null
array or dict `Count` returns 0, `IsEmpty` returns true and `FLArray_Get`,
`FLDict_Get` and `FLDict_GetWithKey` return null for every index or key. -/
theorem accessors_null_handle (impl : ValueImpl) :
    FLValue_AsBool impl 0 = false ∧ FLValue_IsInteger impl 0 = false ∧
    FLValue_IsUnsigned impl 0 = false ∧ FLValue_IsDouble impl 0 = false ∧
    FLValue_AsInt impl 0 = 0 ∧ FLValue_AsUnsigned impl 0 = 0 ∧
    FLValue_AsFloat impl 0 = 0.0 ∧ FLValue_AsDouble impl 0 = 0.0 ∧
    FLValue_AsString impl 0 = nullslice ∧ FLValue_AsData impl 0 = nullslice ∧
    FLValue_AsArray impl 0 = 0 ∧ FLValue_AsDict impl 0 = 0 ∧
    FLValue_AsTimestamp impl 0 = impl.FLTimestampNone ∧
    FLArray_Count impl 0 = 0 ∧ FLArray_IsEmpty impl 0 = true ∧
    (∀ index, FLArray_Get impl 0 index = 0) ∧
    FLDict_Count impl 0 = 0 ∧ FLDict_IsEmpty impl 0 = true ∧
    (∀ keyString, FLDict_Get impl 0 keyString = 0) ∧
    (∀ k, FLDict_GetWithKey impl 0 k = 0) := by
  refine ⟨rfl, rfl, rfl, rfl, rfl, rfl, rfl, rfl, rfl, rfl, rfl, rfl, rfl, rfl, rfl,
    fun _ => rfl, rfl, rfl, fun _ => rfl, fun _ => rfl⟩

/-! ## C12 -/

theorem range_succ_map (k : Nat) (f : Nat → Bool) :
    (List.range (k + 1)).map f = f 0 :: (List.range k).map (fun j => f (j + 1)) := by
  rw [List.range_succ_eq_map]
  simp [List.map_map, Function.comp_def]

theorem arrayNextResults_from (n : Nat) :
    ∀ (k i : Nat), arrayNextResults k { index := i, count := n } =
      (List.range k).map (fun j => decide (i + j + 1 < n)) := by
  intro k
  induction k with
  | zero => intro i; rfl
  | succ k ih =>
    intro i
    rw [range_succ_map]
    by_cases h : i < n
    · have hn : FLArrayIterator_Next { index := i, count := n } =
          (decide (i + 1 < n), { index := i + 1, count := n }) := by
        simp [FLArrayIterator_Next, ArrayIterator.advance, ArrayIterator.toBool, h]
      simp only [arrayNextResults, hn, ih]
      congr 1
      apply List.map_congr_left
      intro j _
      have : i + 1 + j + 1 = i + (j + 1) + 1 := by omega
      rw [this]
    · have hn : FLArrayIterator_Next { index := i, count := n } =
          (false, { index := i, count := n }) := by
        simp [FLArrayIterator_Next, ArrayIterator.advance, h]
      simp only [arrayNextResults, hn, ih]
      have h0 : decide (i + 0 + 1 < n) = false := by
        simp only [decide_eq_false_iff_not]
        omega
      rw [h0]
      congr 1
      apply List.map_congr_left
      intro j _
      have h1 : decide (i + j + 1 < n) = false := by
        simp only [decide_eq_false_iff_not]
        omega
      have h2 : decide (i + (j + 1) + 1 < n) = false := by
        simp only [decide_eq_false_iff_not]
        omega
      rw [h1, h2]

theorem dictNextResults_from (n : Nat) :
    ∀ (k i : Nat), dictNextResults k { index := i, count := n } =
      (List.range k).map (fun j => decide (i + j + 1 < n)) := by
  intro k
  induction k with
  | zero => intro i; rfl
  | succ k ih =>
    intro i
    rw [range_succ_map]
    by_cases h : i < n
    · have hn : FLDictIterator_Next { index := i, count := n } =
          (decide (i + 1 < n), { index := i + 1, count := n }) := by
        by_cases h1 : i + 1 < n <;>
          simp [FLDictIterator_Next, DictIterator.advance, DictIterator.toBool, h, h1]
      simp only [dictNextResults, hn, ih]
      congr 1
      apply List.map_congr_left
      intro j _
      have : i + 1 + j + 1 = i + (j + 1) + 1 := by omega
      rw [this]
    · have hn : FLDictIterator_Next { index := i, count := n } =
          (false, { index := i, count := n }) := by
        simp [FLDictIterator_Next, DictIterator.advance, h]
      simp only [dictNextResults, hn, ih]
      have h0 : decide (i + 0 + 1 < n) = false := by
        simp only [decide_eq_false_iff_not]
        omega
      rw [h0]
      congr 1
      apply List.map_congr_left
      intro j _
      have h1 : decide (i + j + 1 < n) = false := by
        simp only [decide_eq_false_iff_not]
        omega
      have h2 : decide (i + (j + 1) + 1 < n) = false := by
        simp only [decide_eq_false_iff_not]
        omega
      rw [h1, h2]

/-- C12: after `FLArrayIterator_Begin` on an array of `n` items (resp.
`FLDictIterator_Begin` on a map of `n` entries), the call number `j + 1` of
`FLArrayIterator_Next` (resp. `FLDictIterator_Next`) returns true exactly when
`j + 1 < n`: the calls return true `n - 1` times and false from then on, and every
call on an empty or null array returns false.  `FLArrayIterator_Next` always returns
a value, and it returns false when the advance throws. -/
theorem iterator_next_boolean (n : Nat) :
    (∀ k, arrayNextResults k (FLArrayIterator_Begin n) =
      (List.range k).map (fun j => decide (j + 1 < n))) ∧
    (∀ k, dictNextResults k (FLDictIterator_Begin n) =
      (List.range k).map (fun j => decide (j + 1 < n))) ∧
    (∀ k, arrayNextResults k (FLArrayIterator_Begin 0) = List.replicate k false) ∧
    (∀ i x, ArrayIterator.advance i = .error x → FLArrayIterator_Next i = (false, i)) := by
  refine ⟨fun k => ?_, fun k => ?_, fun k => ?_, fun i x h => ?_⟩
  · have := arrayNextResults_from n k 0
    simpa [FLArrayIterator_Begin] using this
  · have := dictNextResults_from n k 0
    simpa [FLDictIterator_Begin] using this
  · have := arrayNextResults_from 0 k 0
    simp only [FLArrayIterator_Begin, this]
    induction k with
    | zero => rfl
    | succ k ih =>
      rw [range_succ_map, List.replicate_succ]
      simp at ih ⊢
  · simp [FLArrayIterator_Next, h]

/-! ## C13 -/

/-- C13: `FLSharedKeys_Encode(sk, s, add)` returns -1 exactly when the operation it calls
(`encode` when `add` is false, `encodeAndAdd` when it is true) reports "not mapped",
and otherwise the code that operation produced; with `add` false the result depends
on `encode` alone and the table is left as it was. -/
theorem FLSharedKeys_Encode_spec {SK : Type} (impl : SharedKeysImpl SK) (sk : SK)
    (keyStr : Bytes) :
    ((FLSharedKeys_Encode impl sk keyStr false).1 = -1 ↔ impl.encode sk keyStr = none) ∧
    (∀ c, impl.encode sk keyStr = some c →
      (FLSharedKeys_Encode impl sk keyStr false).1 = (c : Int)) ∧
    (FLSharedKeys_Encode impl sk keyStr false).2 = sk ∧
    (∀ impl' : SharedKeysImpl SK, impl'.encode = impl.encode →
      FLSharedKeys_Encode impl' sk keyStr false = FLSharedKeys_Encode impl sk keyStr false) ∧
    ((FLSharedKeys_Encode impl sk keyStr true).1 = -1 ↔
      (impl.encodeAndAdd sk keyStr).2 = none) ∧
    (∀ c, (impl.encodeAndAdd sk keyStr).2 = some c →
      (FLSharedKeys_Encode impl sk keyStr true).1 = (c : Int)) ∧
    (FLSharedKeys_Encode impl sk keyStr true).2 = (impl.encodeAndAdd sk keyStr).1 := by
  refine ⟨?_, ?_, ?_, ?_, ?_, ?_, ?_⟩
  · cases h : impl.encode sk keyStr with
    | none => simp [FLSharedKeys_Encode, h]
    | some c =>
      simp only [FLSharedKeys_Encode, h, Bool.false_eq_true, if_false]
      constructor
      · intro h'
        have : (c : Int) = -1 := h'
        omega
      · intro h'
        cases h'
  · intro c h
    simp [FLSharedKeys_Encode, h]
  · cases h : impl.encode sk keyStr <;> simp [FLSharedKeys_Encode, h]
  · intro impl' h
    simp [FLSharedKeys_Encode, h]
  · cases h : (impl.encodeAndAdd sk keyStr).2 with
    | none => simp [FLSharedKeys_Encode, h]
    | some c =>
      simp only [FLSharedKeys_Encode, h, if_true]
      constructor
      · intro h'
        have : (c : Int) = -1 := h'
        omega
      · intro h'
        cases h'
  · intro c h
    simp [FLSharedKeys_Encode, h]
  · cases h : (impl.encodeAndAdd sk keyStr).2 <;> simp [FLSharedKeys_Encode, h]

/-! ## C14 -/

/-- C14: when `ConvertJSON5` raises a `json5_error`, `FLJSON5_ToJSON` returns a null
result and stores `kFLJSONError` in `*error`, the input position of the error in
`*outErrorPos` and its message in `*outErrorMessage`; for another exception it stores
position 0, the message of the exception and its code; each only through an
out-pointer that is not null.  When the conversion succeeds it returns the converted
JSON and leaves the three out-parameters as they were. -/
theorem FLJSON5_ToJSON_spec (ConvertJSON5 : String → JSON5Outcome) (json5 : String)
    (outErrorMessage : Option (Option String)) (outErrorPos : Option Nat)
    (error : Option FLError) :
    (∀ what inputPos, ConvertJSON5 json5 = .json5_error what inputPos →
      FLJSON5_ToJSON ConvertJSON5 json5 outErrorMessage outErrorPos error =
        (none, outErrorMessage.map (fun _ => some what),
          outErrorPos.map (fun _ => inputPos),
          error.map (fun _ => FLError.kFLJSONError))) ∧
    (∀ x, ConvertJSON5 json5 = .exception x →
      FLJSON5_ToJSON ConvertJSON5 json5 outErrorMessage outErrorPos error =
        (none, outErrorMessage.map (fun _ => some x.what),
          outErrorPos.map (fun _ => 0), error.map (fun _ => x.code))) ∧
    (∀ json, ConvertJSON5 json5 = .ok json →
      FLJSON5_ToJSON ConvertJSON5 json5 outErrorMessage outErrorPos error =
        (some json, outErrorMessage, outErrorPos, error)) := by
  refine ⟨fun what inputPos h => ?_, fun x h => ?_, fun json h => ?_⟩
  · simp [FLJSON5_ToJSON, h]
  · simp [FLJSON5_ToJSON, h, recordError]
  · simp [FLJSON5_ToJSON, h]

/-! ## C15 -/

/-- C15: `FLValue_GetType(v)` returns `kFLUndefined` when `v` is null or
`v->isUndefined()` holds, and the type `v->type()` in every other case; a value of
type null that is not undefined is reported as `kFLNull`, which is not
`kFLUndefined`. -/
theorem FLValue_GetType_spec (impl : ValueImpl) (v : Nat) :
    (v = 0 ∨ impl.isUndefined v = true → FLValue_GetType impl v = FLValueType.kFLUndefined) ∧
    (v ≠ 0 → impl.isUndefined v = false →
      FLValue_GetType impl v = (impl.type v).toFLValueType) ∧
    (v ≠ 0 → impl.isUndefined v = false → impl.type v = valueType.kNull →
      FLValue_GetType impl v = FLValueType.kFLNull ∧
      FLValue_GetType impl v ≠ FLValueType.kFLUndefined) := by
  refine ⟨fun h => ?_, fun h0 hu => ?_, fun h0 hu ht => ?_⟩
  · rcases h with h | h
    · simp [FLValue_GetType, h]
    · simp [FLValue_GetType, h]
  · simp [FLValue_GetType, h0, hu]
  · have : FLValue_GetType impl v = FLValueType.kFLNull := by
      simp [FLValue_GetType, h0, hu, ht, valueType.toFLValueType]
    rw [this]
    exact ⟨rfl, by decide⟩

/-! ## C16 -/

/-- C16: when the converter created for the new binary encoder rejects the input
(`encodeJSON` returns false) with an error code `c` other than `kFLNoError`,
`FLData_ConvertJSON` returns the null slice and stores `c` in `*outError` when
`outError` is not null: the failed `FLEncoder_ConvertJSON` has put the encoder in the
failed state, which `FLEncoder_Finish` reports. -/
theorem FLData_ConvertJSON_rejected {Enc JEnc Conv : Type} (g : Glue Enc JEnc Conv)
    (newEncoder : Nat → Enc) (json : Bytes) (outError : Option FLError) (jc : Conv)
    (hnew : g.converterNew (newEncoder json.length) = .ok jc)
    (hrej : (g.encodeJSON jc (newEncoder json.length) json).2 = .ok false)
    (hc : g.converterErrorCode (g.encodeJSON jc (newEncoder json.length) json).1.1
      ≠ FLError.kFLNoError) :
    FLData_ConvertJSON g newEncoder json outError =
      (none, outError.map (fun _ =>
        g.converterErrorCode (g.encodeJSON jc (newEncoder json.length) json).1.1)) ∧
    (FLEncoder_ConvertJSON g
      (FLEncoderImpl.newFleece newEncoder json.length : FLEncoderImpl Enc JEnc Conv)
      json).1 = false ∧
    (FLEncoder_ConvertJSON g
      (FLEncoderImpl.newFleece newEncoder json.length : FLEncoderImpl Enc JEnc Conv)
      json).2.hasError = true := by
  have hconv : FLEncoder_ConvertJSON g
      (FLEncoderImpl.newFleece newEncoder json.length : FLEncoderImpl Enc JEnc Conv) json =
      (false,
        { errorCode :=
            g.converterErrorCode (g.encodeJSON jc (newEncoder json.length) json).1.1,
          errorMessage :=
            g.converterErrorMessage (g.encodeJSON jc (newEncoder json.length) json).1.1,
          fleeceEncoder := some (g.encodeJSON jc (newEncoder json.length) json).1.2,
          jsonEncoder := none,
          jsonConverter := some (g.encodeJSON jc (newEncoder json.length) json).1.1,
          extraInfo := 0 }) := by
    simp [FLEncoder_ConvertJSON, FLEncoderImpl.newFleece, FLEncoderImpl.hasError,
      FLEncoderImpl.isFleece, prepareConverter, hnew, hrej]
  refine ⟨?_, ?_, ?_⟩
  · simp only [FLData_ConvertJSON, hconv]
    simp [FLEncoder_Finish, FLEncoderImpl.hasError, finishFailure, hc]
  · rw [hconv]
  · rw [hconv]
    simp [FLEncoderImpl.hasError, hc]

/-- C16 at concrete collaborators: the converter of `exGlue` rejects every input with
`kFLJSONError`. -/
theorem FLData_ConvertJSON_rejected_witness :
    FLData_ConvertJSON exGlue (fun _ => ()) [123, 34] (some FLError.kFLNoError) =
      (none, some FLError.kFLJSONError) :=
  (FLData_ConvertJSON_rejected exGlue (fun _ => ()) [123, 34] (some FLError.kFLNoError) ()
    rfl rfl (by decide)).1

/-! ## C17 -/

theorem exDuplicate_reachable : Reachable rangeEq exDuplicate :=
  Reachable.afterRegistr exSingle (exScope 5 ⟨100, 100⟩) exDuplicate
    { exScope 5 ⟨100, 100⟩ with registered := true } exSingle_reachable (by decide) rfl

/-- C17, as stated, fails: `slice::operator==` compares the bytes of two slices.  In a
memory of zero bytes, the registry reached by registering two Scopes over `[100, 200)`
with the extern destinations `[300, 310)` and `[400, 410)` holds two Scopes of the
same end address and different extern destinations. -/
theorem same_end_same_config_counterexample :
    Reachable (contentEq exZeroMemory) exExternPair ∧
    (exExternScope 1 ⟨300, 10⟩).entry ∈ entries exExternPair ∧
    (exExternScope 5 ⟨400, 10⟩).entry ∈ entries exExternPair ∧
    (exExternScope 1 ⟨300, 10⟩).data.end_ = (exExternScope 5 ⟨400, 10⟩).data.end_ ∧
    (exExternScope 1 ⟨300, 10⟩).externDestination ≠
      (exExternScope 5 ⟨400, 10⟩).externDestination :=
  ⟨exExternPair_reachable, by decide, by decide, rfl, by decide⟩

/-- C17, amended: in every registry state reachable through successful registrations and
unregistrations, two registered Scopes whose data end at the same address have the
same data range, the same shared keys, and extern destinations that
`slice::operator==` finds equal. -/
theorem same_end_same_config (cmp : SliceEq) (r : Option memoryMap) (a b : Nat × ScopeRef)
    (hr : Reachable cmp r) (ha : a ∈ entries r) (hb : b ∈ entries r)
    (hend : a.2.data.end_ = b.2.data.end_) :
    a.2.data = b.2.data ∧ a.2.sk = b.2.sk ∧
    cmp.eq a.2.externDestination b.2.externDestination = true := by
  have hinv := hr.inv
  have hk : a.1 = b.1 := by rw [hinv.key_eq a ha, hinv.key_eq b hb, hend]
  have hcfg := hinv.same a ha b hb hk
  have hdata := data_eq_of_sameConfig cmp hcfg hend
  simp only [sameConfig, Bool.and_eq_true, beq_iff_eq] at hcfg
  exact ⟨hdata, hcfg.2, hcfg.1.2⟩

/-- The amended C17 at a concrete state: the two Scopes registered over `[100, 200)`. -/
theorem same_end_same_config_witness :
    (exScope 1 ⟨100, 100⟩).data = (exScope 5 ⟨100, 100⟩).data ∧
    (exScope 1 ⟨100, 100⟩).sk = (exScope 5 ⟨100, 100⟩).sk ∧
    rangeEq.eq (exScope 1 ⟨100, 100⟩).externDestination
      (exScope 5 ⟨100, 100⟩).externDestination = true :=
  same_end_same_config rangeEq exDuplicate (exScope 1 ⟨100, 100⟩).entry
    (exScope 5 ⟨100, 100⟩).entry exDuplicate_reachable (by decide) (by decide) rfl

/-! ## C18 -/

/-- In every reachable registry state the registered Scopes have distinct addresses. -/
theorem Reachable.addr_distinct {cmp : SliceEq} {r : Option memoryMap}
    (h : Reachable cmp r) : (entries r).Pairwise (fun a b => a.2.addr ≠ b.2.addr) := by
  induction h with
  | init => exact List.Pairwise.nil
  | afterRegistr r s r' s' _ hfresh hreg ih =>
    rw [registr_eq] at hreg
    by_cases hc : conflict cmp (entries r) s = true
    · simp [hc] at hreg
    · simp only [Bool.not_eq_true] at hc
      simp only [hc, Bool.false_eq_true, if_false, Except.ok.injEq, Prod.mk.injEq] at hreg
      rw [← hreg.1]
      show (lowerPart (entries r) s.data.end_ ++
        s.entry :: upperPart (entries r) s.data.end_).Pairwise _
      have hlsub : (lowerPart (entries r) s.data.end_).Sublist (entries r) :=
        List.takeWhile_sublist _
      have husub : (upperPart (entries r) s.data.end_).Sublist (entries r) :=
        (List.dropWhile_suffix _).sublist
      have hsplit := ih
      rw [← lower_append_upper (entries r) s.data.end_, List.pairwise_append] at hsplit
      rw [List.pairwise_append, List.pairwise_cons]
      refine ⟨hsplit.1, ⟨fun e he => ?_, hsplit.2.1⟩, fun a ha b hb => ?_⟩
      · exact fun heq => hfresh e (husub.subset he) heq.symm
      · rcases List.mem_cons.1 hb with h1 | h1
        · rw [h1]
          exact hfresh a (hlsub.subset ha)
        · exact hsplit.2.2 a ha b h1
  | afterUnregister r s _ _ ih =>
    unfold unregister
    by_cases hreg : s.registered = true
    · cases r with
      | none => simp [hreg, entries]
      | some m =>
        simp only [hreg, if_true, Option.map_some', entries, Option.getD_some]
        exact ih.sublist (List.erase_sublist _ m)
    · simpa [hreg] using ih

/-- C18: in a reachable registry state.  Registering a new Scope and then unregistering
it gives back the entries the registry had before, with every lookup as before;
unregistering a registered Scope removes its own entry and leaves every other entry,
those of the same end address included, in place, none of them an entry of that
Scope; unregistering a Scope that is not registered changes nothing, and a Scope that
has unregistered is not registered, so that unregistering it again changes nothing. -/
theorem unregister_exact (cmp : SliceEq) (r : Option memoryMap) (s : Scope)
    (hr : Reachable cmp r) :
    ((∀ e ∈ entries r, e.2.addr ≠ s.addr) → ∀ r' s', registr cmp r s = .ok (r', s') →
      s'.registered = true ∧ (unregister r' s').1 = some (entries r) ∧
      (unregister r' s').2.registered = false ∧
      ∀ p, containing (unregister r' s').1 p = containing r p) ∧
    (s.registered = true → s.entry ∈ entries r →
      ∃ l₁ l₂, entries r = l₁ ++ s.entry :: l₂ ∧
        entries (unregister r s).1 = l₁ ++ l₂ ∧
        ∀ e ∈ l₁ ++ l₂, e.2.addr ≠ s.addr) ∧
    (s.registered = false → unregister r s = (r, s)) ∧
    (unregister r s).2.registered = false ∧
    unregister (unregister r s).1 (unregister r s).2 = unregister r s := by
  refine ⟨fun hfresh r' s' hreg => ?_, fun hreg hmem => ?_, fun hreg => ?_, ?_, ?_⟩
  · rw [registr_eq] at hreg
    by_cases hc : conflict cmp (entries r) s = true
    · simp [hc] at hreg
    · simp only [hc, if_false, Except.ok.injEq, Prod.mk.injEq] at hreg
      obtain ⟨rfl, rfl⟩ := hreg
      have hent : ({ s with registered := true } : Scope).entry = s.entry := rfl
      have hun : (unregister
          (some (lowerPart (entries r) s.data.end_ ++
            s.entry :: upperPart (entries r) s.data.end_))
          { s with registered := true }).1 = some (entries r) := by
        simp only [unregister, if_true, Option.map_some', hent]
        rw [erase_inserted (entries r) s hfresh]
      refine ⟨rfl, hun, by simp [unregister], fun p => ?_⟩
      rw [hun, containing_eq, containing_eq]
      rfl
  · cases r with
    | none => simp [entries] at hmem
    | some m =>
      have hm : s.entry ∈ m := by simpa [entries] using hmem
      obtain ⟨l₁, l₂, _, hl, herase⟩ := List.exists_erase_eq hm
      have hd := hr.addr_distinct
      simp only [entries, Option.getD_some] at hd
      refine ⟨l₁, l₂, by simpa [entries] using hl, ?_, fun e he => ?_⟩
      · simp [unregister, hreg, entries, herase]
      · rw [hl, List.pairwise_append, List.pairwise_cons] at hd
        rcases List.mem_append.1 he with h1 | h1
        · exact hd.2.2 e h1 s.entry (by simp)
        · exact fun heq => hd.2.1.1 e h1 heq.symm
  · simp [unregister, hreg]
  · by_cases h : s.registered = true <;> simp [unregister, h]
  · by_cases h : s.registered = true <;> simp [unregister, h]

/-- C18 at a concrete state: with a Scope over `[100, 200)` registered at address 1, a
second Scope over `[100, 200)` at address 5, registered under the same end address,
unregisters: the registry is as before its registration. -/
theorem unregister_exact_witness :
    (unregister exDuplicate { exScope 5 ⟨100, 100⟩ with registered := true }).1 =
      some (entries exSingle) ∧
    unregister exSingle (exScope 5 ⟨100, 100⟩) = (exSingle, exScope 5 ⟨100, 100⟩) :=
  have h := unregister_exact rangeEq exSingle (exScope 5 ⟨100, 100⟩) exSingle_reachable
  ⟨(h.1 (by decide) exDuplicate { exScope 5 ⟨100, 100⟩ with registered := true } rfl).2.1,
   h.2.2.1 rfl⟩

/-! ## C19 -/

/-- C19: on a JSON-format encoder that is not in the failed state,
`FLEncoder_ConvertJSON` returns false also when `writeJSON` returns without raising,
and then the error code of the encoder is still `kFLNoError`; whenever
`FLEncoder_ConvertJSON` returns true the encoder is a binary-format one whose
converter accepted the input. -/
theorem FLEncoder_ConvertJSON_result {Enc JEnc Conv : Type} (g : Glue Enc JEnc Conv)
    (e : FLEncoderImpl Enc JEnc Conv) (json : Bytes) :
    (∀ je, e.isFleece = false → e.hasError = false → e.jsonEncoder = some je →
      (g.writeJSON je json).2 = .ok () →
      FLEncoder_ConvertJSON g e json =
        (false, { e with jsonEncoder := some (g.writeJSON je json).1 }) ∧
      (FLEncoder_ConvertJSON g e json).2.errorCode = FLError.kFLNoError) ∧
    ((FLEncoder_ConvertJSON g e json).1 = true →
      e.isFleece = true ∧ e.hasError = false ∧
      ∃ enc jc, e.fleeceEncoder = some enc ∧ (g.encodeJSON jc enc json).2 = .ok true) := by
  constructor
  · intro je hf hne hje hw
    have hcode : e.errorCode = FLError.kFLNoError := by
      simpa [FLEncoderImpl.hasError] using hne
    have h : FLEncoder_ConvertJSON g e json =
        (false, { e with jsonEncoder := some (g.writeJSON je json).1 }) := by
      simp [FLEncoder_ConvertJSON, hf, hne, hje, hw]
    rw [h]
    exact ⟨rfl, hcode⟩
  · intro ht
    unfold FLEncoder_ConvertJSON at ht
    by_cases hne : e.hasError = true
    · simp [hne] at ht
    · simp only [Bool.not_eq_true] at hne
      by_cases hf : e.isFleece = true
      · refine ⟨hf, hne, ?_⟩
        cases hfe : e.fleeceEncoder with
        | none => simp [hne, hf, hfe] at ht
        | some enc =>
          simp only [hne, hf, hfe, Bool.not_false, if_true] at ht
          cases hp : (prepareConverter g e.jsonConverter enc).2 with
          | error x => simp [hp] at ht
          | ok jc =>
            simp only [hp] at ht
            cases hr : (g.encodeJSON jc enc json).2 with
            | error x => simp [hr] at ht
            | ok b =>
              cases b with
              | false => simp [hr] at ht
              | true => exact ⟨enc, jc, rfl, hr⟩
      · simp only [Bool.not_eq_true] at hf
        cases hje : e.jsonEncoder with
        | none => simp [hne, hf, hje] at ht
        | some je =>
          simp only [hne, hf, hje, Bool.not_false, if_true, Bool.false_eq_true,
            if_false] at ht
          cases hw : (g.writeJSON je json).2 <;> simp [hw] at ht

/-- C19 at a concrete encoder: a JSON-format encoder without error, with collaborators
whose `writeJSON` returns. -/
theorem FLEncoder_ConvertJSON_result_witness :
    FLEncoder_ConvertJSON exGlue exJSONEncoder [123, 125] = (false, exJSONEncoder) ∧
    (FLEncoder_ConvertJSON exGlue exJSONEncoder [123, 125]).2.errorCode =
      FLError.kFLNoError :=
  (FLEncoder_ConvertJSON_result exGlue exJSONEncoder [123, 125]).1 () rfl rfl rfl rfl

end fleece
